import Mathlib

/-!
Verification of the AI-guided crawler core (`src/crawler/` of the
BIM-Category-URL-Crawler repository).

The Python modules `crawler/models.py`, `crawler/ai_crawler.py`,
`crawler/utils.py` and `crawler/dynamic_loading.py` are shallowly embedded
below.  Python floats are modelled as rationals (`ℚ`): every score that
occurs in the code (`0.0`, `1.0`, `8.0`, `9.0` and the values produced by
`json.loads`) is compared and averaged exactly, so the order-theoretic
behaviour relevant to the claims is identical.  Python dicts appearing in
scorer responses are modelled as association lists of JSON values; Python's
`heapq` module (an external library to the crawler) is modelled by its
documented contract: `heappush` adds an entry to the pool, `heappop` removes
and returns the least entry in lexicographic tuple order.  JSON booleans are
kept distinct from numbers (the Python quirk `isinstance(True, int) = True`
is not modelled; no claim depends on boolean-valued fields).
-/

/-- A JSON scalar as produced by `json.loads`: Python distinguishes `int`
and `float` values (`isinstance(x, int)` accepts only the former), so the
embedding keeps both constructors. -/
inductive JVal where
  | jint (i : ℤ)
  | jfloat (q : ℚ)
  | jstr (s : String)
  | jbool (b : Bool)
  | jnull
deriving DecidableEq, Repr

/-- An element of a decoded JSON array: either a dict (association list,
as produced for a JSON object) or some other value. -/
inductive JElem where
  | dict (fields : List (String × JVal))
  | other (v : JVal)
deriving DecidableEq, Repr

/-- A Python dict holding one scorer result (`{"id": ..., "score": ...,
"productName": ...}`). -/
abbrev ScoreDict := List (String × JVal)

/-- `d.get(k)`: first binding of `k` in the association list. -/
def dictGet (fields : ScoreDict) (k : String) : Option JVal :=
  (fields.find? (fun p => p.1 = k)).map Prod.snd

/-- `isinstance(v, (int, float))` together with the numeric value. -/
def numVal? : JVal → Option ℚ
  | .jint i => some (i : ℚ)
  | .jfloat q => some q
  | _ => none

/-- `isinstance(v, int)` together with the integer value. -/
def intVal? : JVal → Option ℤ
  | .jint i => some i
  | _ => none

/-- `ai_crawler.py` 393: the synthesized fallback
`[{"id": i, "score": 0} for i in range(expected_count)]`. -/
def defaultScores (expected : ℕ) : List JElem :=
  List.map (fun i => JElem.dict [("id", .jint (Int.ofNat i)), ("score", .jint 0)])
    (List.range expected)

/-- `ai_crawler.py` 467-487 (`_parse_ai_response`): build the id-keyed map
from the decoded array (later entries overwrite earlier ones, as Python
dict assignment does), then order the results by expected id, substituting
`{"id": i, "score": 0.0}` for every missing id. -/
def idToScore (arr : List JElem) : ℤ → Option JElem :=
  arr.foldl
    (fun m e =>
      match e with
      | .dict fs =>
          match (dictGet fs "id").bind intVal? with
          | some i => fun j => if j = i then some (.dict fs) else m j
          | none => m
      | .other _ => m)
    (fun _ => none)

/-- `ai_crawler.py` 479-495: the ordered result list built by
`_parse_ai_response` from a successfully decoded JSON array. -/
def parseOrdered (arr : List JElem) (expected : ℕ) : List JElem :=
  List.map
    (fun i =>
      match idToScore arr (Int.ofNat i) with
      | some e => e
      | none => JElem.dict [("id", .jint (Int.ofNat i)), ("score", .jfloat 0)])
    (List.range expected)

/-- `ai_crawler.py` 395-434 (`_validate_ai_scores`): the response must be a
list of exactly `expected` elements, each a dict carrying a numeric
`"score"` and, when an `"id"` field is present, an integer id. -/
def validElem : JElem → Bool
  | .dict fs =>
      (match dictGet fs "score" with
       | some v => (numVal? v).isSome
       | none => false)
      && (match dictGet fs "id" with
          | some v => (intVal? v).isSome
          | none => true)
  | .other _ => false

/-- Whole-list validation (`_validate_ai_scores`). -/
def validateAiScores (scores : List JElem) (expected : ℕ) : Bool :=
  scores.length = expected && scores.all validElem

/-- `ai_crawler.py` 345-393 (`_get_ai_scores_with_retry`), the attempt loop.
`responses a` is attempt `a`'s decoded JSON array, or `none` when the
boundary call raised or no JSON array could be decoded (both are caught by
the `except` of the loop and trigger the next attempt).  `remaining` counts
the attempts still allowed; the loop starts with `maxRetries + 1`. -/
def retryFrom (responses : ℕ → Option (List JElem)) (expected : ℕ) :
    ℕ → ℕ → List JElem
  | _, 0 => defaultScores expected
  | attempt, remaining + 1 =>
      match responses attempt with
      | none => retryFrom responses expected (attempt + 1) remaining
      | some arr =>
          let parsed := parseOrdered arr expected
          if validateAiScores parsed expected then parsed
          else retryFrom responses expected (attempt + 1) remaining

/-- `_get_ai_scores_with_retry` with its `max_retries` parameter
(default 3, hence four total attempts). -/
def getAiScoresWithRetry (responses : ℕ → Option (List JElem))
    (expected maxRetries : ℕ) : List JElem :=
  retryFrom responses expected 0 (maxRetries + 1)

theorem defaultScores_length (expected : ℕ) :
    (defaultScores expected).length = expected := by
  rw [defaultScores, List.length_map, List.length_range]

theorem validElem_default (i : ℤ) :
    validElem (.dict [("id", .jint i), ("score", .jint 0)]) = true := by
  rfl

theorem validateAiScores_defaultScores (expected : ℕ) :
    validateAiScores (defaultScores expected) expected = true := by
  rw [validateAiScores]
  refine Bool.and_eq_true .. |>.mpr ⟨by rw [defaultScores_length]; simp, ?_⟩
  rw [List.all_eq_true]
  intro e he
  rw [defaultScores, List.mem_map] at he
  obtain ⟨i, _, rfl⟩ := he
  exact validElem_default (Int.ofNat i)

/-- Every value `retryFrom` can return passes `_validate_ai_scores`:
an early return is validated by the guard, and the post-loop fallback is
`defaultScores`. -/
theorem retryFrom_validates (responses : ℕ → Option (List JElem))
    (expected : ℕ) :
    ∀ remaining attempt,
      validateAiScores (retryFrom responses expected attempt remaining)
        expected = true := by
  intro remaining
  induction remaining with
  | zero => intro attempt; simp [retryFrom, validateAiScores_defaultScores]
  | succ r ih =>
      intro attempt
      simp only [retryFrom]
      cases responses attempt with
      | none => exact ih (attempt + 1)
      | some arr =>
          by_cases h : validateAiScores (parseOrdered arr expected) expected = true
          · simp [h]
          · simp only [h]
            simp only [Bool.false_eq_true, if_false]
            exact ih (attempt + 1)

/-- `retryFrom` only ever consults attempts `attempt, …, attempt+remaining-1`. -/
theorem retryFrom_depends_only_on_window (expected : ℕ) :
    ∀ remaining attempt (r1 r2 : ℕ → Option (List JElem)),
      (∀ a, attempt ≤ a → a < attempt + remaining → r1 a = r2 a) →
      retryFrom r1 expected attempt remaining
        = retryFrom r2 expected attempt remaining := by
  intro remaining
  induction remaining with
  | zero => intro attempt r1 r2 _; simp [retryFrom]
  | succ r ih =>
      intro attempt r1 r2 hagree
      have h0 : r1 attempt = r2 attempt :=
        hagree attempt le_rfl (by omega)
      simp only [retryFrom, h0]
      have hrest : ∀ a, attempt + 1 ≤ a → a < attempt + 1 + r → r1 a = r2 a := by
        intro a h1 h2
        exact hagree a (by omega) (by omega)
      cases r2 attempt with
      | none => exact ih (attempt + 1) r1 r2 hrest
      | some arr =>
          by_cases h : validateAiScores (parseOrdered arr expected) expected = true
          · simp [h]
          · simp only [h, Bool.false_eq_true, if_false]
            exact ih (attempt + 1) r1 r2 hrest

/-- Attempt `a` fails: the boundary call raised / no array was decodable,
or the parsed response failed `_validate_ai_scores`. -/
def attemptFails (responses : ℕ → Option (List JElem)) (expected a : ℕ) : Prop :=
  match responses a with
  | none => True
  | some arr => validateAiScores (parseOrdered arr expected) expected = false

instance (responses : ℕ → Option (List JElem)) (expected a : ℕ) :
    Decidable (attemptFails responses expected a) := by
  unfold attemptFails
  cases responses a <;> infer_instance

/-- If every allowed attempt fails (boundary raised, or the parsed response
failed validation), the loop returns the synthesized zero-score list. -/
theorem retryFrom_all_fail (responses : ℕ → Option (List JElem))
    (expected : ℕ) :
    ∀ remaining attempt,
      (∀ a, attempt ≤ a → a < attempt + remaining →
        attemptFails responses expected a) →
      retryFrom responses expected attempt remaining = defaultScores expected := by
  intro remaining
  induction remaining with
  | zero => intro attempt _; simp [retryFrom]
  | succ r ih =>
      intro attempt hfail
      have h0 := hfail attempt le_rfl (by omega)
      simp only [retryFrom]
      unfold attemptFails at h0
      cases hr : responses attempt with
      | none =>
          exact ih (attempt + 1) (fun a h1 h2 => hfail a (by omega) (by omega))
      | some arr =>
          rw [hr] at h0
          simp only [h0, Bool.false_eq_true, if_false]
          exact ih (attempt + 1) (fun a h1 h2 => hfail a (by omega) (by omega))

/-- C5: the scorer boundary call is wrapped in a retry loop of at most 4
total attempts (`max_retries = 3`); each attempt re-invokes the boundary
and re-validates the response shape; on exhaustion of all retries the
scheduler returns `[{id: i, score: 0}]` for every candidate index, and no
malformed scorer response is ever propagated: the returned list always
passes `_validate_ai_scores` (a list of exactly the expected length, every
element a dict with a numeric `score` and, when present, an integer id). -/
theorem scorer_retry_policy (responses r2 : ℕ → Option (List JElem))
    (expected : ℕ) :
    validateAiScores (getAiScoresWithRetry responses expected 3) expected = true
    ∧ ((∀ a, a < 4 → attemptFails responses expected a) →
        getAiScoresWithRetry responses expected 3 = defaultScores expected)
    ∧ ((∀ a, a < 4 → responses a = r2 a) →
        getAiScoresWithRetry responses expected 3
          = getAiScoresWithRetry r2 expected 3) := by
  refine ⟨retryFrom_validates responses expected 4 0, ?_, ?_⟩
  · intro hfail
    exact retryFrom_all_fail responses expected 4 0
      (fun a _ h2 => hfail a (by omega))
  · intro hagree
    exact retryFrom_depends_only_on_window expected 4 0 responses r2
      (fun a _ h2 => hagree a (by omega))

/-- Witness for `scorer_retry_policy`: a boundary that raises on every
attempt yields the synthesized zero-score list for two candidates, and the
result does not depend on what the boundary would have returned from the
fifth attempt on. -/
theorem scorer_retry_policy_witness :
    validateAiScores (getAiScoresWithRetry (fun _ => none) 2 3) 2 = true
    ∧ getAiScoresWithRetry (fun _ => none) 2 3 = defaultScores 2
    ∧ getAiScoresWithRetry (fun _ => none) 2 3
        = getAiScoresWithRetry (fun a => if a < 4 then none else some []) 2 3 := by
  obtain ⟨h1, h2, h3⟩ :=
    scorer_retry_policy (fun _ => none) (fun a => if a < 4 then none else some []) 2
  exact ⟨h1, h2 (fun a _ => trivial), h3 (fun a ha => by simp [ha])⟩

/-- Link identity and exploration bookkeeping.  `lid` is `LinkInfo.id`
(`models.py` 17): the candidate's index used to match scorer results. -/
structure LinkRec where
  url : String
  path : String
  lid : ℕ
deriving DecidableEq, Repr

/-- `models.py` 39-47 (`WebsiteNode.__init__`): a discovered page.
`children` is the `path -> node` dict; node references are indices into the
state's node list. -/
structure NodeRec where
  url : String
  path : String
  parent : Option ℕ
  score : ℚ
  productName : Option String
  explored : Bool
  children : List (String × ℕ)
deriving DecidableEq, Repr

/-- One `(negative_avg_score, counter, node)` heap entry
(`models.py` 102). -/
structure FEntry where
  neg : ℚ
  seq : ℕ
  nid : ℕ
deriving DecidableEq, Repr

/-- `models.py` 98-113 (`OpenSet`): the priority pool (`_heap`), the push
counter, and the membership set (`_node_set`).  `heapq.heappush` only adds
an entry to the pool, so the heap is modelled as the list of live entries;
`heappop`'s least-tuple-first contract is modelled in `extractMin` below. -/
structure OpenSetState where
  heap : List FEntry
  ctr : ℕ
  mem : List ℕ
deriving DecidableEq, Repr

def OpenSetState.empty : OpenSetState := ⟨[], 0, []⟩

/-- `models.py` 106-113 (`OpenSet.add`): no-op when the node is already
tracked; otherwise push `(-avg_score, counter, node)` and advance the
counter.  `avg` is the caller's `node.get_average_score()` (line 110). -/
def OpenSetState.add (os : OpenSetState) (nid : ℕ) (avg : ℚ) : OpenSetState :=
  if nid ∈ os.mem then os
  else { heap := ⟨-avg, os.ctr, nid⟩ :: os.heap, ctr := os.ctr + 1,
         mem := nid :: os.mem }

/-- The crawler's mutable state (`ai_crawler.py` 52-62): the node store,
`url_to_node`, `open_set` and the accumulated `products` (name, url). -/
structure CrawlerState where
  nodes : List NodeRec
  urlIndex : List (String × ℕ)
  opens : OpenSetState
  products : List (String × String)
deriving DecidableEq, Repr

/-- `url_to_node[url]` lookup. -/
def lookupUrl (idx : List (String × ℕ)) (u : String) : Option ℕ :=
  (idx.find? (fun p => p.1 = u)).map Prod.snd

/-- Apply `f` to the node at `nid` (mutation of a Python object held in
the node store); out-of-range indices leave the store unchanged and cannot
occur in reachable states. -/
def modifyNode (nodes : List NodeRec) (nid : ℕ) (f : NodeRec → NodeRec) :
    List NodeRec :=
  match nodes.get? nid with
  | some n => nodes.set nid (f n)
  | none => nodes

/-- Python dict assignment `d[k] = v`: replace the binding in place if the
key exists, else append it. -/
def assocUpd (l : List (String × ℕ)) (k : String) (v : ℕ) : List (String × ℕ) :=
  match l with
  | [] => [(k, v)]
  | (k', v') :: rest =>
      if k' = k then (k, v) :: rest else (k', v') :: assocUpd rest k v

/-- Python truthiness of the optional product name (`if product_name:`):
present and non-empty. -/
def namePresent : Option String → Bool
  | some s => !s.isEmpty
  | none => false

/-- `ai_crawler.py` 586-601 (`_create_child_node`): reuse the node found in
`url_to_node`, else allocate a fresh node whose parent is the current node
and register it in the parent's `children` dict and in `url_to_node`;
then assign the new score and (if truthy) the product name. -/
def createChildNode (st : CrawlerState) (link : LinkRec) (parentNid : ℕ)
    (score : ℚ) (productName : Option String) : ℕ × CrawlerState :=
  let found :=
    match lookupUrl st.urlIndex link.url with
    | some nid => (nid, st)
    | none =>
        let nid := st.nodes.length
        let newNode : NodeRec :=
          { url := link.url, path := link.path, parent := some parentNid,
            score := 0, productName := none, explored := false, children := [] }
        let nodes1 := st.nodes ++ [newNode]
        let nodes2 := modifyNode nodes1 parentNid
          (fun p => { p with children := assocUpd p.children link.path nid })
        (nid, { st with nodes := nodes2,
                        urlIndex := (link.url, nid) :: st.urlIndex })
  let nid := found.1
  let st1 := found.2
  (nid,
   { st1 with
     nodes := modifyNode st1.nodes nid (fun n =>
       { n with score := score,
                productName :=
                  if namePresent productName then productName
                  else n.productName }) })

/-- `models.py` 86-95 (`get_average_score`), the ancestor walk: the node's
own score followed by the scores of its parents.  `fuel` bounds the walk;
reachable states have parent indices strictly below the child index, so
`nodes.length` steps always reach the root (Python's `while` loop
terminates for the same reason). -/
def chainScores (nodes : List NodeRec) : ℕ → ℕ → List ℚ
  | 0, _ => []
  | fuel + 1, nid =>
      match nodes.get? nid with
      | none => []
      | some n =>
          n.score ::
            (match n.parent with
             | none => []
             | some p => chainScores nodes fuel p)

/-- `models.py` 86-95: keep only strictly positive scores (`if
current.score > 0`) and average them, defaulting to `0.0`. -/
def averageScore (chain : List ℚ) : ℚ :=
  let scores := chain.filter (fun s => 0 < s)
  if scores.length = 0 then 0 else scores.sum / scores.length

/-- `node.get_average_score()` for the node at `nid`. -/
def nodeAverage (st : CrawlerState) (nid : ℕ) : ℚ :=
  averageScore (chainScores st.nodes st.nodes.length nid)

/-- `ai_crawler.py` 192: `score_item.get("id") == link_info.id` (Python
number equality across int/float). -/
def idMatches (fs : ScoreDict) (lid : ℕ) : Bool :=
  match dictGet fs "id" with
  | some v => decide (numVal? v = some ((lid : ℤ) : ℚ))
  | none => false

/-- `ai_crawler.py` 188-204: resolve a candidate's score dict — first by id
match, then positionally (`scores[link_info.id]` when `link_info.id <
len(scores)`), finally the synthetic `{"id": ..., "score": 0.0}`. -/
def resolveScoreData (scores : List ScoreDict) (lid : ℕ) : ScoreDict :=
  match scores.find? (fun fs => idMatches fs lid) with
  | some fs => fs
  | none =>
      match scores.get? lid with
      | some fs => fs
      | none => [("id", .jint (Int.ofNat lid)), ("score", .jfloat 0)]

/-- `ai_crawler.py` 206: `score_data.get("score", 0.0)`.  A non-numeric
value cannot reach this line (every list handed to `_process_scored_links`
passed `_validate_ai_scores`), so it is collapsed to the default as well. -/
def getScoreVal (fs : ScoreDict) : ℚ :=
  match dictGet fs "score" with
  | some v => (numVal? v).getD 0
  | none => 0

/-- `ai_crawler.py` 207: `score_data.get("productName")`; only string
values are meaningful downstream. -/
def getPName (fs : ScoreDict) : Option String :=
  match dictGet fs "productName" with
  | some (.jstr s) => some s
  | _ => none

/-- The three classification outcomes of `_process_scored_links`. -/
inductive LinkClass where
  | skip
  | target
  | explore
deriving DecidableEq, Repr

/-- `ai_crawler.py` 216-238: `score < 1.0` skips, `score > 9.0` is a
target, everything else is queued for exploration. -/
def classifyScore (s : ℚ) : LinkClass :=
  if s < 1 then .skip else if s > 9 then .target else .explore

/-- One iteration of the loop of `_process_scored_links`
(`ai_crawler.py` 188-238) for the candidate `link`: resolve the score,
create/update the child node, then either mark it explored (skip), mark it
explored and record the product when a name is present (target), or push
it onto the open set (explore). -/
def processOneLink (parentNid : ℕ) (scores : List ScoreDict)
    (st : CrawlerState) (link : LinkRec) : CrawlerState × LinkClass :=
  let fs := resolveScoreData scores link.lid
  let s := getScoreVal fs
  let pn := getPName fs
  let created := createChildNode st link parentNid s pn
  let cnid := created.1
  let st1 := created.2
  if s < 1 then
    ({ st1 with
       nodes := modifyNode st1.nodes cnid (fun n => { n with explored := true }) },
     .skip)
  else if s > 9 then
    let st2 :=
      { st1 with
        nodes := modifyNode st1.nodes cnid (fun n => { n with explored := true }) }
    if namePresent pn then
      ({ st2 with
         nodes := modifyNode st2.nodes cnid (fun n => { n with productName := pn }),
         products := st2.products ++ [(pn.getD "", link.url)] },
       .target)
    else (st2, .target)
  else
    ({ st1 with opens := st1.opens.add cnid (nodeAverage st1 cnid) }, .explore)

/-- The full loop of `_process_scored_links`: fold `processOneLink` over
the candidate batch, collecting each candidate's classification. -/
def processScoredLinks (children : List LinkRec) (scores : List ScoreDict)
    (parentNid : ℕ) (st : CrawlerState) : CrawlerState × List LinkClass :=
  children.foldl
    (fun acc link =>
      let step := processOneLink parentNid scores acc.1 link
      (step.1, acc.2 ++ [step.2]))
    (st, [])

/-- The classification computed by `processOneLink` depends only on the
resolved score, never on the crawler state. -/
theorem processOneLink_class (parentNid : ℕ) (scores : List ScoreDict)
    (st : CrawlerState) (link : LinkRec) :
    (processOneLink parentNid scores st link).2
      = classifyScore (getScoreVal (resolveScoreData scores link.lid)) := by
  unfold processOneLink classifyScore
  set s := getScoreVal (resolveScoreData scores link.lid) with hs
  by_cases h1 : s < 1
  · simp [h1]
  · by_cases h9 : s > 9
    · by_cases hp : namePresent (getPName (resolveScoreData scores link.lid)) = true
      · simp [h1, h9, hp]
      · simp [h1, h9, hp]
    · simp [h1, h9]

theorem processScoredLinks_aux (children : List LinkRec)
    (scores : List ScoreDict) (parentNid : ℕ) :
    ∀ (st : CrawlerState) (done : List LinkClass),
      (children.foldl
        (fun acc link =>
          let step := processOneLink parentNid scores acc.1 link
          (step.1, acc.2 ++ [step.2]))
        (st, done)).2
      = done ++ children.map
          (fun l => classifyScore (getScoreVal (resolveScoreData scores l.lid))) := by
  induction children with
  | nil => intro st done; simp
  | cons hd tl ih =>
      intro st done
      simp only [List.foldl_cons, List.map_cons]
      rw [ih]
      rw [processOneLink_class]
      simp

/-- The outcome list of `_process_scored_links` is exactly one
classification per candidate, in order. -/
theorem processScoredLinks_outcomes (children : List LinkRec)
    (scores : List ScoreDict) (parentNid : ℕ) (st : CrawlerState) :
    (processScoredLinks children scores parentNid st).2
      = children.map
          (fun l => classifyScore (getScoreVal (resolveScoreData scores l.lid))) := by
  unfold processScoredLinks
  rw [processScoredLinks_aux]
  simp

/-- C6: the scheduler produces exactly one classification outcome per
candidate in the batch; a candidate's score dict is resolved by id match
first, positionally (`scores[link.id]`) when no result carries its id, and
by the synthetic zero-score dict when neither exists; a resolved dict with
no `score` field yields score 0 — so no candidate is dropped even for
short response arrays or missing fields. -/
theorem candidate_resolution_total (children : List LinkRec)
    (scores : List ScoreDict) (parentNid : ℕ) (st : CrawlerState)
    (link : LinkRec) (fs : ScoreDict) :
    ((processScoredLinks children scores parentNid st).2.length
        = children.length)
    ∧ (scores.find? (fun d => idMatches d link.lid) = some fs →
        resolveScoreData scores link.lid = fs)
    ∧ (∀ fs2, scores.find? (fun d => idMatches d link.lid) = none →
        scores.get? link.lid = some fs2 →
          resolveScoreData scores link.lid = fs2)
    ∧ (scores.find? (fun d => idMatches d link.lid) = none →
        scores.length ≤ link.lid →
          resolveScoreData scores link.lid
              = [("id", .jint (Int.ofNat link.lid)), ("score", .jfloat 0)]
            ∧ getScoreVal (resolveScoreData scores link.lid) = 0)
    ∧ (dictGet fs "score" = none → getScoreVal fs = 0) := by
  refine ⟨?_, ?_, ?_, ?_, ?_⟩
  · rw [processScoredLinks_outcomes, List.length_map]
  · intro hfind
    unfold resolveScoreData
    rw [hfind]
  · intro fs2 hfind hget
    unfold resolveScoreData
    rw [hfind, hget]
  · intro hfind h
    have hget : scores.get? link.lid = none := List.get?_eq_none.mpr h
    constructor
    · unfold resolveScoreData
      rw [hfind, hget]
    · unfold resolveScoreData
      rw [hfind, hget]
      rfl
  · intro hnone
    unfold getScoreVal
    rw [hnone]

/-- Witness data: a two-candidate batch against a one-element response. -/
def demoLink0 : LinkRec := ⟨"https://s.test/a", "/a", 0⟩

def demoLink1 : LinkRec := ⟨"https://s.test/b", "/b", 1⟩

def demoScores1 : List ScoreDict := [[("id", .jint 1), ("score", .jfloat 5)]]

/-- The initial crawler state for `https://s.test` (`ai_crawler.py` 52-62):
one root node, registered in `url_to_node`, empty open set and products. -/
def demoState : CrawlerState :=
  { nodes := [{ url := "https://s.test", path := "", parent := none,
                score := 0, productName := none, explored := false,
                children := [] }],
    urlIndex := [("https://s.test", 0)],
    opens := OpenSetState.empty,
    products := [] }

/-- Witness for `candidate_resolution_total`: with one response element
carrying id 1, candidate 1 resolves by id, candidate 0 resolves
positionally; against an empty response, candidate 1 gets the synthetic
zero dict; a dict without a `score` field scores 0; and a two-candidate
batch yields exactly two outcomes. -/
theorem candidate_resolution_total_witness :
    (processScoredLinks [demoLink0, demoLink1] demoScores1 0 demoState).2.length = 2
    ∧ resolveScoreData demoScores1 1 = [("id", .jint 1), ("score", .jfloat 5)]
    ∧ resolveScoreData demoScores1 0 = [("id", .jint 1), ("score", .jfloat 5)]
    ∧ resolveScoreData [] 1 = [("id", .jint 1), ("score", .jfloat 0)]
    ∧ getScoreVal (resolveScoreData [] 1) = 0
    ∧ getScoreVal [("id", .jint 3)] = 0 := by
  have h1 := (candidate_resolution_total [demoLink0, demoLink1] demoScores1 0
    demoState demoLink1 [("id", JVal.jint 3)]).1
  have h2 := (candidate_resolution_total [demoLink0, demoLink1] demoScores1 0
    demoState demoLink1
    [("id", JVal.jint 1), ("score", JVal.jfloat 5)]).2.1 (by decide)
  have h3 := (candidate_resolution_total [demoLink0, demoLink1] demoScores1 0
    demoState demoLink0 [("id", JVal.jint 3)]).2.2.1
    [("id", JVal.jint 1), ("score", JVal.jfloat 5)] (by decide) (by decide)
  have h4 := (candidate_resolution_total [demoLink0, demoLink1] [] 0
    demoState demoLink1 [("id", JVal.jint 3)]).2.2.2.1 (by decide) (by decide)
  have h5 := (candidate_resolution_total [demoLink0, demoLink1] demoScores1 0
    demoState demoLink1 [("id", JVal.jint 3)]).2.2.2.2 (by decide)
  refine ⟨by simpa [demoLink0, demoLink1] using h1, by simpa [demoLink1] using h2,
    by simpa [demoLink0, demoScores1] using h3, ?_, ?_, h5⟩
  · simpa [demoLink1] using h4.1
  · simpa [demoLink1] using h4.2

theorem modifyNode_length (nodes : List NodeRec) (nid : ℕ) (f : NodeRec → NodeRec) :
    (modifyNode nodes nid f).length = nodes.length := by
  unfold modifyNode
  cases h : nodes.get? nid with
  | none => rfl
  | some n => rw [List.length_set]

theorem modifyNode_get?_same (nodes : List NodeRec) (nid : ℕ) (f : NodeRec → NodeRec)
    (n : NodeRec) (h : nodes.get? nid = some n) :
    (modifyNode nodes nid f).get? nid = some (f n) := by
  unfold modifyNode
  rw [h]
  rw [List.get?_set_eq]
  rw [h]
  rfl

theorem modifyNode_get?_other (nodes : List NodeRec) (nid i : ℕ)
    (f : NodeRec → NodeRec) (h : i ≠ nid) :
    (modifyNode nodes nid f).get? i = nodes.get? i := by
  unfold modifyNode
  cases hg : nodes.get? nid with
  | none => rfl
  | some n => rw [List.get?_set_ne _ _ (fun hh => h hh.symm)]

/-- Index well-formedness: every `url_to_node` entry points into the node
store (true in every reachable state, since nodes are registered when
allocated). -/
def UrlIdxWF (st : CrawlerState) : Prop :=
  ∀ e ∈ st.urlIndex, e.2 < st.nodes.length

instance (st : CrawlerState) : Decidable (UrlIdxWF st) := by
  unfold UrlIdxWF
  infer_instance

theorem lookupUrl_lt (st : CrawlerState) (u : String) (nid : ℕ)
    (hwf : UrlIdxWF st) (hl : lookupUrl st.urlIndex u = some nid) :
    nid < st.nodes.length := by
  unfold lookupUrl at hl
  cases hf : st.urlIndex.find? (fun p => p.1 = u) with
  | none => rw [hf] at hl; cases hl
  | some e =>
      rw [hf] at hl
      have he := List.mem_of_find?_eq_some hf
      have h2 : e.2 = nid := by simpa using hl
      exact h2 ▸ hwf e he

theorem createChildNode_opens (st : CrawlerState) (link : LinkRec) (p : ℕ)
    (s : ℚ) (pn : Option String) :
    (createChildNode st link p s pn).2.opens = st.opens := by
  unfold createChildNode
  cases hl : lookupUrl st.urlIndex link.url <;> simp [hl]

theorem createChildNode_products (st : CrawlerState) (link : LinkRec) (p : ℕ)
    (s : ℚ) (pn : Option String) :
    (createChildNode st link p s pn).2.products = st.products := by
  unfold createChildNode
  cases hl : lookupUrl st.urlIndex link.url <;> simp [hl]

/-- After `_create_child_node`, `url_to_node[url]` points at the returned
node. -/
theorem createChildNode_lookup (st : CrawlerState) (link : LinkRec) (p : ℕ)
    (s : ℚ) (pn : Option String) :
    lookupUrl (createChildNode st link p s pn).2.urlIndex link.url
      = some (createChildNode st link p s pn).1 := by
  unfold createChildNode
  cases hl : lookupUrl st.urlIndex link.url with
  | some nid => simp [hl]
  | none =>
      simp only [hl]
      unfold lookupUrl
      rw [List.find?_cons_of_pos _ (by simp)]
      rfl

/-- The node returned by `_create_child_node` carries the newly assigned
score, and the product name when a truthy one was given. -/
theorem createChildNode_node (st : CrawlerState) (link : LinkRec) (p : ℕ)
    (s : ℚ) (pn : Option String) (hwf : UrlIdxWF st) :
    ∃ n, (createChildNode st link p s pn).2.nodes.get?
          (createChildNode st link p s pn).1 = some n
      ∧ n.score = s
      ∧ (namePresent pn = true → n.productName = pn) := by
  unfold createChildNode
  cases hl : lookupUrl st.urlIndex link.url with
  | some nid =>
      have hlt : nid < st.nodes.length := lookupUrl_lt st link.url nid hwf hl
      have hget : st.nodes.get? nid = some (st.nodes.get ⟨nid, hlt⟩) :=
        List.get?_eq_get hlt
      simp only [hl]
      exact ⟨_, modifyNode_get?_same _ _ _ _ hget, rfl, fun hp => by simp [hp]⟩
  | none =>
      simp only [hl]
      set newNode : NodeRec :=
        { url := link.url, path := link.path, parent := some p,
          score := 0, productName := none, explored := false,
          children := [] } with hnew
      have h1 : (st.nodes ++ [newNode]).get? st.nodes.length = some newNode :=
        List.get?_concat_length _ _
      have h2 : ∃ m, (modifyNode (st.nodes ++ [newNode]) p
            (fun q => { q with
              children := assocUpd q.children link.path st.nodes.length })).get?
            st.nodes.length = some m
          ∧ m.score = newNode.score ∧ m.productName = newNode.productName := by
        by_cases hp : p = st.nodes.length
        · subst hp
          exact ⟨_, modifyNode_get?_same _ _ _ _ h1, rfl, rfl⟩
        · refine ⟨newNode, ?_, rfl, rfl⟩
          rw [modifyNode_get?_other _ _ _ _ (fun hh => hp hh.symm)]
          exact h1
      obtain ⟨m, hm, hms, hmp⟩ := h2
      refine ⟨_, modifyNode_get?_same _ _ _ _ hm, rfl, ?_⟩
      intro hpn
      simp [hpn]

theorem processOneLink_skip_eq (parentNid : ℕ) (scores : List ScoreDict)
    (st : CrawlerState) (link : LinkRec) (s : ℚ) (pn : Option String)
    (hs : getScoreVal (resolveScoreData scores link.lid) = s)
    (hpn : getPName (resolveScoreData scores link.lid) = pn)
    (h : s < 1) :
    processOneLink parentNid scores st link
      = ({ (createChildNode st link parentNid s pn).2 with
           nodes := modifyNode (createChildNode st link parentNid s pn).2.nodes
             (createChildNode st link parentNid s pn).1
             (fun n => { n with explored := true }) },
         LinkClass.skip) := by
  simp only [processOneLink]
  rw [hs, hpn, if_pos h]

theorem processOneLink_target_eq (parentNid : ℕ) (scores : List ScoreDict)
    (st : CrawlerState) (link : LinkRec) (s : ℚ) (pn : Option String)
    (hs : getScoreVal (resolveScoreData scores link.lid) = s)
    (hpn : getPName (resolveScoreData scores link.lid) = pn)
    (h1 : ¬s < 1) (h9 : s > 9) (hname : namePresent pn = true) :
    processOneLink parentNid scores st link
      = ({ (createChildNode st link parentNid s pn).2 with
           nodes := modifyNode
             (modifyNode (createChildNode st link parentNid s pn).2.nodes
               (createChildNode st link parentNid s pn).1
               (fun n => { n with explored := true }))
             (createChildNode st link parentNid s pn).1
             (fun n => { n with productName := pn }),
           products := (createChildNode st link parentNid s pn).2.products
             ++ [(pn.getD "", link.url)] },
         LinkClass.target) := by
  simp only [processOneLink]
  rw [hs, hpn, if_neg h1, if_pos h9, if_pos hname]

theorem processOneLink_target_unnamed_eq (parentNid : ℕ)
    (scores : List ScoreDict) (st : CrawlerState) (link : LinkRec)
    (s : ℚ) (pn : Option String)
    (hs : getScoreVal (resolveScoreData scores link.lid) = s)
    (hpn : getPName (resolveScoreData scores link.lid) = pn)
    (h1 : ¬s < 1) (h9 : s > 9) (hname : namePresent pn = false) :
    processOneLink parentNid scores st link
      = ({ (createChildNode st link parentNid s pn).2 with
           nodes := modifyNode (createChildNode st link parentNid s pn).2.nodes
             (createChildNode st link parentNid s pn).1
             (fun n => { n with explored := true }) },
         LinkClass.target) := by
  simp only [processOneLink]
  rw [hs, hpn, if_neg h1, if_pos h9]
  rw [hname]
  rfl

theorem processOneLink_explore_eq (parentNid : ℕ) (scores : List ScoreDict)
    (st : CrawlerState) (link : LinkRec) (s : ℚ) (pn : Option String)
    (hs : getScoreVal (resolveScoreData scores link.lid) = s)
    (hpn : getPName (resolveScoreData scores link.lid) = pn)
    (h1 : ¬s < 1) (h9 : ¬s > 9) :
    processOneLink parentNid scores st link
      = ({ (createChildNode st link parentNid s pn).2 with
           opens := OpenSetState.add
             (createChildNode st link parentNid s pn).2.opens
             (createChildNode st link parentNid s pn).1
             (nodeAverage (createChildNode st link parentNid s pn).2
               (createChildNode st link parentNid s pn).1) },
         LinkClass.explore) := by
  simp only [processOneLink]
  rw [hs, hpn, if_neg h1, if_neg h9]

/-- C1: for every candidate processed by the driver loop with resolved
score `s`: if `s < 1.0` the child node is created/updated and marked
explored immediately without being queued (open set and products
untouched); if `s > 9.0` the child is created/updated and marked explored,
and a target result is recorded exactly when a label is present; otherwise
(`1.0 ≤ s ≤ 9.0`, boundaries included) the child is created/updated and
pushed to the Frontier.  In particular score exactly 1.0 and score exactly
9.0 are both explore-class. -/
theorem classification_bands (parentNid : ℕ) (scores : List ScoreDict)
    (st : CrawlerState) (link : LinkRec) (hwf : UrlIdxWF st) :
    (getScoreVal (resolveScoreData scores link.lid) < 1 →
      (processOneLink parentNid scores st link).1.opens = st.opens
      ∧ (processOneLink parentNid scores st link).1.products = st.products
      ∧ ∃ cnid n,
          lookupUrl (processOneLink parentNid scores st link).1.urlIndex link.url
              = some cnid
          ∧ (processOneLink parentNid scores st link).1.nodes.get? cnid = some n
          ∧ n.score = getScoreVal (resolveScoreData scores link.lid)
          ∧ n.explored = true)
    ∧ (9 < getScoreVal (resolveScoreData scores link.lid) →
      (processOneLink parentNid scores st link).1.opens = st.opens
      ∧ (∃ cnid n,
          lookupUrl (processOneLink parentNid scores st link).1.urlIndex link.url
              = some cnid
          ∧ (processOneLink parentNid scores st link).1.nodes.get? cnid = some n
          ∧ n.explored = true)
      ∧ (namePresent (getPName (resolveScoreData scores link.lid)) = true →
          ∃ name, getPName (resolveScoreData scores link.lid) = some name
            ∧ (processOneLink parentNid scores st link).1.products
                = st.products ++ [(name, link.url)])
      ∧ (namePresent (getPName (resolveScoreData scores link.lid)) = false →
          (processOneLink parentNid scores st link).1.products = st.products))
    ∧ (1 ≤ getScoreVal (resolveScoreData scores link.lid) →
       getScoreVal (resolveScoreData scores link.lid) ≤ 9 →
      ∃ cnid prio,
        lookupUrl (processOneLink parentNid scores st link).1.urlIndex link.url
            = some cnid
        ∧ (processOneLink parentNid scores st link).1.opens
            = OpenSetState.add st.opens cnid prio
        ∧ (processOneLink parentNid scores st link).1.products = st.products)
    ∧ classifyScore 1 = .explore
    ∧ classifyScore 9 = .explore
    ∧ (∀ q : ℚ, q < 1 → classifyScore q = .skip)
    ∧ (∀ q : ℚ, 9 < q → classifyScore q = .target) := by
  obtain ⟨n0, hn0, hn0s, hn0p⟩ := createChildNode_node st link parentNid
    (getScoreVal (resolveScoreData scores link.lid))
    (getPName (resolveScoreData scores link.lid)) hwf
  have hop := createChildNode_opens st link parentNid
    (getScoreVal (resolveScoreData scores link.lid))
    (getPName (resolveScoreData scores link.lid))
  have hpr := createChildNode_products st link parentNid
    (getScoreVal (resolveScoreData scores link.lid))
    (getPName (resolveScoreData scores link.lid))
  have hlk := createChildNode_lookup st link parentNid
    (getScoreVal (resolveScoreData scores link.lid))
    (getPName (resolveScoreData scores link.lid))
  refine ⟨?_, ?_, ?_, by simp [classifyScore], by simp [classifyScore],
    fun q hq => by simp [classifyScore, hq],
    fun q hq => by simp only [classifyScore]; rw [if_neg (by linarith), if_pos hq]⟩
  · intro h1
    rw [processOneLink_skip_eq parentNid scores st link _ _ rfl rfl h1]
    exact ⟨hop, hpr, _, { n0 with explored := true }, hlk,
      modifyNode_get?_same _ _ _ _ hn0, hn0s, rfl⟩
  · intro h9
    have h1 : ¬getScoreVal (resolveScoreData scores link.lid) < 1 := by linarith
    refine ⟨?_, ?_, ?_, ?_⟩
    · cases hname : namePresent (getPName (resolveScoreData scores link.lid)) with
      | true =>
          rw [processOneLink_target_eq parentNid scores st link _ _ rfl rfl h1 h9 hname]
          exact hop
      | false =>
          rw [processOneLink_target_unnamed_eq parentNid scores st link _ _ rfl rfl
            h1 h9 hname]
          exact hop
    · cases hname : namePresent (getPName (resolveScoreData scores link.lid)) with
      | true =>
          rw [processOneLink_target_eq parentNid scores st link _ _ rfl rfl h1 h9 hname]
          refine ⟨_, { { n0 with explored := true } with
            productName := getPName (resolveScoreData scores link.lid) }, hlk, ?_, rfl⟩
          exact modifyNode_get?_same _ _ _ _ (modifyNode_get?_same _ _ _ _ hn0)
      | false =>
          rw [processOneLink_target_unnamed_eq parentNid scores st link _ _ rfl rfl
            h1 h9 hname]
          exact ⟨_, { n0 with explored := true }, hlk,
            modifyNode_get?_same _ _ _ _ hn0, rfl⟩
    · intro hname
      cases hpn : getPName (resolveScoreData scores link.lid) with
      | none => rw [hpn] at hname; cases hname
      | some nm =>
          refine ⟨nm, rfl, ?_⟩
          rw [processOneLink_target_eq parentNid scores st link _ _ rfl rfl h1 h9 hname]
          rw [hpr, hpn]
          rfl
    · intro hname
      rw [processOneLink_target_unnamed_eq parentNid scores st link _ _ rfl rfl
        h1 h9 hname]
      exact hpr
  · intro hge hle
    have h1 : ¬getScoreVal (resolveScoreData scores link.lid) < 1 := by linarith
    have h9 : ¬getScoreVal (resolveScoreData scores link.lid) > 9 := by linarith
    rw [processOneLink_explore_eq parentNid scores st link _ _ rfl rfl h1 h9]
    refine ⟨(createChildNode st link parentNid
        (getScoreVal (resolveScoreData scores link.lid))
        (getPName (resolveScoreData scores link.lid))).1,
      nodeAverage
        (createChildNode st link parentNid
          (getScoreVal (resolveScoreData scores link.lid))
          (getPName (resolveScoreData scores link.lid))).2
        (createChildNode st link parentNid
          (getScoreVal (resolveScoreData scores link.lid))
          (getPName (resolveScoreData scores link.lid))).1,
      hlk, ?_, hpr⟩
    rw [← hop]

def demoSkipScores : List ScoreDict := [[("id", .jint 0), ("score", .jfloat (mkRat 1 2))]]

def demoTargetScores : List ScoreDict :=
  [[("id", .jint 0), ("score", .jfloat (mkRat 19 2)), ("productName", .jstr "Widget")]]

/-- Witness for `classification_bands`: a candidate scored 0.5 leaves the
open set untouched, a candidate scored 9.5 with a label is recorded as a
product, and a candidate scored 5.0 is pushed onto the open set. -/
theorem classification_bands_witness :
    (processOneLink 0 demoSkipScores demoState demoLink0).1.opens = demoState.opens
    ∧ (∃ name, getPName (resolveScoreData demoTargetScores demoLink0.lid) = some name
        ∧ (processOneLink 0 demoTargetScores demoState demoLink0).1.products
            = demoState.products ++ [(name, demoLink0.url)])
    ∧ (∃ cnid prio,
        lookupUrl (processOneLink 0 demoScores1 demoState demoLink1).1.urlIndex
            demoLink1.url = some cnid
        ∧ (processOneLink 0 demoScores1 demoState demoLink1).1.opens
            = OpenSetState.add demoState.opens cnid prio) := by
  have hskip := (classification_bands 0 demoSkipScores demoState demoLink0
    (by decide)).1 (by decide)
  have htgt := ((classification_bands 0 demoTargetScores demoState demoLink0
    (by decide)).2.1 (by decide)).2.2.1 (by decide)
  have hexp := (classification_bands 0 demoScores1 demoState demoLink1
    (by decide)).2.2.1 (by decide) (by decide)
  obtain ⟨c, p, ha, hb, _⟩ := hexp
  exact ⟨hskip.1, htgt, c, p, ha, hb⟩

/-- Strict order on heap entries: Python compares the tuples
`(negative_avg_score, counter, node)` lexicographically, and the strictly
increasing counter decides every tie in the score component before the
node object would ever be compared. -/
def keyLt (a b : FEntry) : Prop :=
  a.neg < b.neg ∨ (a.neg = b.neg ∧ a.seq < b.seq)

instance (a b : FEntry) : Decidable (keyLt a b) := by
  unfold keyLt
  infer_instance

theorem keyLt_irrefl (a : FEntry) : ¬keyLt a a := by
  unfold keyLt
  rintro (h | ⟨-, h⟩)
  · exact lt_irrefl _ h
  · exact lt_irrefl _ h

theorem keyLt_asymm (a b : FEntry) (h : keyLt a b) : ¬keyLt b a := by
  unfold keyLt at h ⊢
  rcases h with h1 | ⟨he1, h1⟩ <;> rintro (h2 | ⟨he2, h2⟩) <;>
    first | linarith | omega

theorem keyLt_resolve (a b : FEntry) (hab : ¬keyLt a b) (hba : ¬keyLt b a) :
    a.neg = b.neg ∧ a.seq = b.seq := by
  unfold keyLt at hab hba
  push_neg at hab hba
  obtain ⟨h1, h2⟩ := hab
  obtain ⟨h3, h4⟩ := hba
  have he : a.neg = b.neg := le_antisymm h3 h1
  exact ⟨he, le_antisymm (h4 he.symm) (h2 he)⟩

/-- `heapq.heappop`'s contract on the live-entry pool: select the entry
that is least in lexicographic tuple order and return it together with the
remaining pool. -/
def extractMin : List FEntry → Option (FEntry × List FEntry)
  | [] => none
  | e :: es =>
      match extractMin es with
      | none => some (e, [])
      | some (m, rest) =>
          if keyLt m e then some (m, e :: rest) else some (e, es)

theorem extractMin_nil_iff (l : List FEntry) : extractMin l = none ↔ l = [] := by
  cases l with
  | nil => simp [extractMin]
  | cons e es =>
      simp only [extractMin]
      cases h : extractMin es with
      | none => simp
      | some p =>
          obtain ⟨m, rest⟩ := p
          by_cases hk : keyLt m e <;> simp [hk]

theorem keyLt_trans_not (a b c : FEntry) (hba : ¬keyLt b a)
    (hcb : ¬keyLt c b) : ¬keyLt c a := by
  unfold keyLt at hba hcb ⊢
  push_neg at hba hcb
  obtain ⟨h1, h2⟩ := hba
  obtain ⟨h3, h4⟩ := hcb
  rintro (h5 | ⟨h5, h6⟩)
  · linarith
  · have e1 : b.neg = a.neg := le_antisymm (h5 ▸ h3) h1
    have e2 : c.neg = b.neg := h5.trans e1.symm
    have s1 := h2 e1
    have s2 := h4 e2
    omega

theorem extractMin_perm (l : List FEntry) :
    ∀ e rest, extractMin l = some (e, rest) → l.Perm (e :: rest) := by
  induction l with
  | nil => intro e rest h; cases h
  | cons a es ih =>
      intro e rest h
      simp only [extractMin] at h
      cases hr : extractMin es with
      | none =>
          rw [hr] at h
          dsimp only at h
          obtain rfl : es = [] := (extractMin_nil_iff es).mp hr
          cases h
          exact List.Perm.refl _
      | some p =>
          obtain ⟨m, rest2⟩ := p
          rw [hr] at h
          dsimp only at h
          by_cases hk : keyLt m a
          · rw [if_pos hk] at h
            have h2 := Option.some.inj h
            rw [Prod.mk.injEq] at h2
            obtain ⟨he, hrest⟩ := h2
            subst he
            subst hrest
            exact ((ih m rest2 hr).cons a).trans (List.Perm.swap m a rest2)
          · rw [if_neg hk] at h
            have h2 := Option.some.inj h
            rw [Prod.mk.injEq] at h2
            obtain ⟨he, hrest⟩ := h2
            subst he
            subst hrest
            exact List.Perm.refl _

theorem extractMin_min (l : List FEntry) :
    ∀ e rest, extractMin l = some (e, rest) → ∀ x ∈ rest, ¬keyLt x e := by
  induction l with
  | nil => intro e rest h; cases h
  | cons a es ih =>
      intro e rest h x hx
      simp only [extractMin] at h
      cases hr : extractMin es with
      | none =>
          rw [hr] at h
          dsimp only at h
          cases h
          cases hx
      | some p =>
          obtain ⟨m, rest2⟩ := p
          rw [hr] at h
          dsimp only at h
          by_cases hk : keyLt m a
          · rw [if_pos hk] at h
            have h2 := Option.some.inj h
            rw [Prod.mk.injEq] at h2
            obtain ⟨he, hrest⟩ := h2
            subst he
            subst hrest
            rcases hx with _ | hx
            · exact keyLt_asymm _ _ hk
            · exact ih m rest2 hr x (by assumption)
          · rw [if_neg hk] at h
            have h2 := Option.some.inj h
            rw [Prod.mk.injEq] at h2
            obtain ⟨he, hrest⟩ := h2
            subst he
            subst hrest
            have hxm : x ∈ m :: rest2 :=
              (extractMin_perm es m rest2 hr).mem_iff.mp hx
            rcases hxm with _ | hxm
            · exact hk
            · exact keyLt_trans_not a m x hk (ih m rest2 hr x (by assumption))

/-- `models.py` 115-122 (`OpenSet.pop`), the `while` loop: pop the least
heap entry; if its node is still tracked in `_node_set`, remove it from
the set and return it; otherwise keep popping.  `fuel` bounds the loop by
the heap size (each iteration removes one heap entry, exactly as in
Python). -/
def popLoop : ℕ → List FEntry → List ℕ → Option (ℕ × List FEntry × List ℕ)
  | 0, _, _ => none
  | fuel + 1, heap, mem =>
      match extractMin heap with
      | none => none
      | some (e, rest) =>
          if e.nid ∈ mem then some (e.nid, rest, mem.erase e.nid)
          else popLoop fuel rest mem

/-- `OpenSet.pop` on the whole state. -/
def OpenSetState.pop (os : OpenSetState) : Option (ℕ × OpenSetState) :=
  match popLoop os.heap.length os.heap os.mem with
  | none => none
  | some (n, heap2, mem2) => some (n, ⟨heap2, os.ctr, mem2⟩)

/-- The full pop order: repeatedly pop until the open set is exhausted. -/
def popSeqAux : ℕ → OpenSetState → List ℕ
  | 0, _ => []
  | fuel + 1, os =>
      match os.pop with
      | none => []
      | some (n, os2) => n :: popSeqAux fuel os2

def popSeq (os : OpenSetState) : List ℕ := popSeqAux os.heap.length os

/-- Well-formedness tying `_heap` and `_node_set` together: every live
entry's node is tracked, every tracked node has an entry, no node has two
live entries, and the set holds no duplicates.  `OpenSet.add` and
`OpenSet.pop` preserve all four (`add` refuses duplicates, `pop` removes
the entry and the set element together). -/
def HeapWF (heap : List FEntry) (mem : List ℕ) : Prop :=
  (∀ e ∈ heap, e.nid ∈ mem)
  ∧ (∀ n ∈ mem, ∃ e ∈ heap, e.nid = n)
  ∧ (heap.map FEntry.nid).Nodup
  ∧ mem.Nodup

instance (heap : List FEntry) (mem : List ℕ) : Decidable (HeapWF heap mem) := by
  unfold HeapWF
  infer_instance

def OpenWF (os : OpenSetState) : Prop := HeapWF os.heap os.mem

instance (os : OpenSetState) : Decidable (OpenWF os) := by
  unfold OpenWF
  infer_instance

theorem popLoop_step (heap : List FEntry) (mem : List ℕ) (e : FEntry)
    (rest : List FEntry) (h : extractMin heap = some (e, rest))
    (hwf : HeapWF heap mem) (fuel : ℕ) :
    popLoop (fuel + 1) heap mem = some (e.nid, rest, mem.erase e.nid) := by
  have he : e ∈ heap :=
    (extractMin_perm heap e rest h).mem_iff.mpr (List.mem_cons_self e rest)
  simp only [popLoop, h]
  rw [if_pos (hwf.1 e he)]

theorem heapWF_step (heap : List FEntry) (mem : List ℕ) (e : FEntry)
    (rest : List FEntry) (h : extractMin heap = some (e, rest))
    (hwf : HeapWF heap mem) : HeapWF rest (mem.erase e.nid) := by
  obtain ⟨hw1, hw2, hw3, hw4⟩ := hwf
  have hperm := extractMin_perm heap e rest h
  have hnodup2 : ((e :: rest).map FEntry.nid).Nodup :=
    ((hperm.map FEntry.nid).nodup_iff).mp hw3
  rw [List.map_cons, List.nodup_cons] at hnodup2
  obtain ⟨hnot, hrestn⟩ := hnodup2
  refine ⟨?_, ?_, hrestn, hw4.erase _⟩
  · intro x hx
    have hxh : x ∈ heap := hperm.mem_iff.mpr (List.mem_cons_of_mem e hx)
    have hxm : x.nid ∈ mem := hw1 x hxh
    have hxe : x.nid ≠ e.nid := by
      intro hq
      exact hnot (hq ▸ List.mem_map_of_mem FEntry.nid hx)
    exact List.mem_erase_of_ne hxe |>.mpr hxm
  · intro n hn
    have hn2 : n ≠ e.nid ∧ n ∈ mem := (hw4.mem_erase_iff).mp hn
    obtain ⟨x, hxh, hxn⟩ := hw2 n hn2.2
    have hxr : x ∈ e :: rest := hperm.mem_iff.mp hxh
    rcases hxr with _ | hxr
    · exact absurd hxn.symm hn2.1
    · exact ⟨x, by assumption, hxn⟩

theorem pop_eq (os : OpenSetState) (hwf : OpenWF os) (e : FEntry)
    (rest : List FEntry) (h : extractMin os.heap = some (e, rest)) :
    os.pop = some (e.nid, ⟨rest, os.ctr, os.mem.erase e.nid⟩) := by
  unfold OpenSetState.pop
  have hne : os.heap ≠ [] := by
    intro hh
    rw [hh] at h
    cases h
  have hlen : os.heap.length = (os.heap.length - 1) + 1 := by
    cases hh : os.heap with
    | nil => exact absurd hh hne
    | cons a l => simp [hh]
  rw [hlen, popLoop_step os.heap os.mem e rest h hwf]

theorem nid_ne_of_ne (heap : List FEntry)
    (hnodup : (heap.map FEntry.nid).Nodup) (eA eB : FEntry) (hA : eA ∈ heap)
    (hB : eB ∈ heap) (hne : eA ≠ eB) : eA.nid ≠ eB.nid := by
  intro hq
  exact hne (List.inj_on_of_nodup_map hnodup hA hB hq)

theorem popSeqAux_before (fuel : ℕ) :
    ∀ os : OpenSetState, os.heap.length ≤ fuel → OpenWF os →
      ∀ eA eB, eA ∈ os.heap → eB ∈ os.heap → keyLt eA eB →
        (popSeqAux fuel os).indexOf eA.nid
          < (popSeqAux fuel os).indexOf eB.nid := by
  induction fuel with
  | zero =>
      intro os hlen hwf eA eB hA hB hlt
      rw [Nat.le_zero, List.length_eq_zero] at hlen
      rw [hlen] at hA
      cases hA
  | succ f ih =>
      intro os hlen hwf eA eB hA hB hlt
      have hne : eA ≠ eB := by
        intro hq
        exact keyLt_irrefl eA (hq ▸ hlt)
      have hnids : eA.nid ≠ eB.nid := nid_ne_of_ne os.heap hwf.2.2.1 eA eB hA hB hne
      cases hx : extractMin os.heap with
      | none =>
          rw [extractMin_nil_iff] at hx
          rw [hx] at hA
          cases hA
      | some p =>
          obtain ⟨m, rest⟩ := p
          have hperm := extractMin_perm os.heap m rest hx
          have hpop := pop_eq os hwf m rest hx
          simp only [popSeqAux, hpop]
          set os2 : OpenSetState := ⟨rest, os.ctr, os.mem.erase m.nid⟩ with hos2
          have hwf2 : OpenWF os2 := heapWF_step os.heap os.mem m rest hx hwf
          have hlen2 : os2.heap.length ≤ f := by
            have hl := hperm.length_eq
            simp only [List.length_cons] at hl
            simp only [hos2]
            omega
          by_cases hAm : eA = m
          · rw [hAm] at hnids ⊢
            rw [List.indexOf_cons_self, List.indexOf_cons_ne _ hnids]
            exact Nat.succ_pos _
          · by_cases hBm : eB = m
            · exfalso
              have hAr : eA ∈ rest := by
                rcases List.mem_cons.mp (hperm.mem_iff.mp hA) with h2 | h2
                · exact absurd h2 hAm
                · exact h2
              exact extractMin_min os.heap m rest hx eA hAr (hBm ▸ hlt)
            · have hAr : eA ∈ os2.heap := by
                rcases List.mem_cons.mp (hperm.mem_iff.mp hA) with h2 | h2
                · exact absurd h2 hAm
                · exact h2
              have hBr : eB ∈ os2.heap := by
                rcases List.mem_cons.mp (hperm.mem_iff.mp hB) with h2 | h2
                · exact absurd h2 hBm
                · exact h2
              have hm : m ∈ os.heap :=
                hperm.mem_iff.mpr (List.mem_cons_self m rest)
              have hAnm : eA.nid ≠ m.nid :=
                nid_ne_of_ne os.heap hwf.2.2.1 eA m hA hm hAm
              have hBnm : eB.nid ≠ m.nid :=
                nid_ne_of_ne os.heap hwf.2.2.1 eB m hB hm hBm
              rw [List.indexOf_cons_ne _ hAnm.symm,
                List.indexOf_cons_ne _ hBnm.symm]
              have := ih os2 hlen2 hwf2 eA eB hAr hBr hlt
              omega

/-- C2: for any two nodes A and B in the Frontier whose entries were
pushed with priorities `pA > pB` (priorities are the negated `neg` field),
A is popped before B; among entries with equal priority, pops follow push
order (the strictly increasing counter); and pushing a node already
present in the membership set is a no-op. -/
theorem frontier_ordering (os : OpenSetState) (hwf : OpenWF os)
    (eA eB : FEntry) (hA : eA ∈ os.heap) (hB : eB ∈ os.heap)
    (nid : ℕ) (avg : ℚ) :
    (-eB.neg < -eA.neg →
        (popSeq os).indexOf eA.nid < (popSeq os).indexOf eB.nid)
    ∧ (eA.neg = eB.neg → eA.seq < eB.seq →
        (popSeq os).indexOf eA.nid < (popSeq os).indexOf eB.nid)
    ∧ (nid ∈ os.mem → OpenSetState.add os nid avg = os) := by
  unfold popSeq
  refine ⟨?_, ?_, ?_⟩
  · intro h
    exact popSeqAux_before os.heap.length os le_rfl hwf eA eB hA hB
      (Or.inl (by linarith))
  · intro he hs
    exact popSeqAux_before os.heap.length os le_rfl hwf eA eB hA hB
      (Or.inr ⟨he, hs⟩)
  · intro hmem
    unfold OpenSetState.add
    rw [if_pos hmem]

/-- A three-push frontier: node 1 at priority 5, node 2 at priority 5,
node 3 at priority 7. -/
def demoOpen : OpenSetState := ((OpenSetState.empty.add 1 5).add 2 5).add 3 7

/-- Witness for `frontier_ordering`: node 3 (priority 7) is popped before
node 1 (priority 5); nodes 1 and 2 share priority 5 and pop in push
order; re-pushing node 2 is a no-op. -/
theorem frontier_ordering_witness :
    ((popSeq demoOpen).indexOf 3 < (popSeq demoOpen).indexOf 1)
    ∧ ((popSeq demoOpen).indexOf 1 < (popSeq demoOpen).indexOf 2)
    ∧ OpenSetState.add demoOpen 2 99 = demoOpen := by
  have h1 := (frontier_ordering demoOpen (by decide) ⟨-7, 2, 3⟩ ⟨-5, 0, 1⟩
    (by decide) (by decide) 2 99).1 (by norm_num)
  have h2 := (frontier_ordering demoOpen (by decide) ⟨-5, 0, 1⟩ ⟨-5, 1, 2⟩
    (by decide) (by decide) 2 99).2.1 (by norm_num) (by norm_num)
  have h3 := (frontier_ordering demoOpen (by decide) ⟨-5, 0, 1⟩ ⟨-5, 1, 2⟩
    (by decide) (by decide) 2 99).2.2 (by decide)
  exact ⟨h1, h2, h3⟩

/-- A node on an ancestor chain, for reasoning about which nodes the
scorer touched: the score the scorer assigned, and whether the node was
ever scored at all.  The node's stored `score` field is the assigned value
when scored and the constructor default `0.0` otherwise
(`models.py` 46). -/
def fieldOf (p : ℚ × Bool) : ℚ := if p.2 then p.1 else 0

/-- Modelled from the claim's words: the arithmetic mean of `directScore`
over the node and all its ancestors that have been scored, with unscored
ancestors excluded, and 0 when nothing was ever scored.  A node scored
with exactly 0 counts as scored here. -/
def claimedPriority (chain : List (ℚ × Bool)) : ℚ :=
  let scored := (chain.filter (fun p => p.2)).map Prod.fst
  if scored.length = 0 then 0 else scored.sum / scored.length

/-- What the code computes: the mean over the chain nodes whose stored
score is strictly positive (`if current.score > 0`, `models.py` 91) — a
node scored exactly 0 is indistinguishable from an unscored one. -/
def amendedPriority (chain : List (ℚ × Bool)) : ℚ :=
  let pos := (chain.filter (fun p => p.2 && decide (0 < p.1))).map Prod.fst
  if pos.length = 0 then 0 else pos.sum / pos.length

theorem filter_map_fieldOf (chain : List (ℚ × Bool)) :
    (List.map fieldOf chain).filter (fun s => 0 < s)
      = (chain.filter (fun p => p.2 && decide (0 < p.1))).map Prod.fst := by
  induction chain with
  | nil => rfl
  | cons hd tl ih =>
      obtain ⟨q, b⟩ := hd
      cases b with
      | true =>
          by_cases h : 0 < q
          · simp [fieldOf, h, ih]
          · simp [fieldOf, h, ih]
      | false => simp [fieldOf, ih]

/-- C3 (amended): the Frontier priority computed at push time equals the
mean of `directScore` over the chain nodes whose stored score is strictly
positive; a node scored exactly 0 (or any non-positive value) is excluded
exactly like an unscored node, and the priority is 0 when no chain node
has a positive score. -/
theorem pushtime_priority (chain : List (ℚ × Bool)) (os : OpenSetState)
    (nid : ℕ) :
    averageScore (List.map fieldOf chain) = amendedPriority chain
    ∧ ((∀ p ∈ chain, p.2 = false ∨ p.1 ≤ 0) →
        averageScore (List.map fieldOf chain) = 0)
    ∧ (nid ∉ os.mem →
        (os.add nid (averageScore (List.map fieldOf chain))).heap.head?
          = some ⟨-(amendedPriority chain), os.ctr, nid⟩) := by
  have h1 : averageScore (List.map fieldOf chain) = amendedPriority chain := by
    unfold averageScore amendedPriority
    rw [filter_map_fieldOf]
  refine ⟨h1, ?_, ?_⟩
  · intro hall
    have hnil : chain.filter (fun p => p.2 && decide (0 < p.1)) = [] := by
      rw [List.filter_eq_nil]
      intro p hp
      rcases hall p hp with h | h
      · simp [h]
      · simp [not_lt.mpr h]
    rw [h1]
    unfold amendedPriority
    rw [hnil]
    rfl
  · intro hmem
    unfold OpenSetState.add
    rw [if_neg hmem]
    simp only [List.head?_cons]
    rw [h1]

/-- C3 counterexample: a chain whose node was scored exactly 0 and whose
parent was scored 5.  The claim's average (counting the scored-0 node) is
5/2, but the code computes 5: `get_average_score` drops the scored-0
node. -/
theorem zero_score_excluded_counterexample :
    averageScore (List.map fieldOf [((0 : ℚ), true), (5, true)]) = 5
    ∧ claimedPriority [((0 : ℚ), true), (5, true)] = 5 / 2
    ∧ averageScore (List.map fieldOf [((0 : ℚ), true), (5, true)])
        ≠ claimedPriority [((0 : ℚ), true), (5, true)] := by
  have e1 : averageScore (List.map fieldOf [((0 : ℚ), true), (5, true)]) = 5 := by
    simp [averageScore, fieldOf]
  have e2 : claimedPriority [((0 : ℚ), true), (5, true)] = 5 / 2 := by
    simp [claimedPriority]
  refine ⟨e1, e2, ?_⟩
  rw [e1, e2]
  norm_num

/-- Witness for `pushtime_priority`: concrete chains with an unscored
node, an all-non-positive chain, and a fresh push. -/
theorem pushtime_priority_witness :
    averageScore (List.map fieldOf [((3 : ℚ), true), (2, false)])
      = amendedPriority [((3 : ℚ), true), (2, false)]
    ∧ averageScore (List.map fieldOf [((-2 : ℚ), true), (4, false)]) = 0
    ∧ (OpenSetState.empty.add 7
        (averageScore (List.map fieldOf [((3 : ℚ), true)]))).heap.head?
        = some ⟨-(amendedPriority [((3 : ℚ), true)]), 0, 7⟩ := by
  refine ⟨(pushtime_priority [((3 : ℚ), true), (2, false)] OpenSetState.empty 7).1,
    ?_, ?_⟩
  · exact (pushtime_priority [((-2 : ℚ), true), (4, false)] OpenSetState.empty 7).2.1
      (by decide)
  · exact (pushtime_priority [((3 : ℚ), true)] OpenSetState.empty 7).2.2 (by decide)

/-- `ai_crawler.py` 95: the guard of the high-direct-score product-page
re-check is `node.score > 8.0` (the `hasattr` conjunct is always true for
`WebsiteNode`). -/
def productCheckInvoked (st : CrawlerState) (nid : ℕ) : Bool :=
  match st.nodes.get? nid with
  | some n => decide (n.score > 8)
  | none => false

/-- `ai_crawler.py` 94-111 (the head of `process_node`): when the popped
node's own score exceeds 8.0, the page is fetched and the classification
boundary is asked whether it is itself a product page (`pageCheck` is
`_check_if_product_page_with_ai`'s answer, `none` on any failure).  On a
truthy product name: record the product, mark the node explored, and
return without extraction (the returned flag is `false`).  Otherwise mark
the node explored and continue to link extraction (flag `true`). -/
def processNodeCheck (st : CrawlerState) (nid : ℕ) (pageCheck : Option String) :
    CrawlerState × Bool :=
  match st.nodes.get? nid with
  | none => (st, false)
  | some n =>
      if n.score > 8 then
        if namePresent pageCheck then
          ({ st with
             nodes := modifyNode st.nodes nid (fun m =>
               { m with productName := pageCheck, explored := true }),
             products := st.products ++ [(pageCheck.getD "", n.url)] }, false)
        else
          ({ st with
             nodes := modifyNode st.nodes nid (fun m =>
               { m with explored := true }) }, true)
      else
        ({ st with
           nodes := modifyNode st.nodes nid (fun m =>
             { m with explored := true }) }, true)

def demoState85 : CrawlerState :=
  { nodes := [{ url := "https://s.test/p", path := "/p", parent := none,
                score := mkRat 17 2, productName := none, explored := false,
                children := [] }],
    urlIndex := [("https://s.test/p", 0)],
    opens := OpenSetState.empty,
    products := [] }

/-- C9 counterexample: a popped node with directScore 8.5 — strictly below
the claimed high threshold 9.0 — nevertheless triggers the product-page
re-check (`node.score > 8.0`), and on confirmation records the product and
skips extraction. -/
theorem high_score_recheck_counterexample :
    productCheckInvoked demoState85 0 = true
    ∧ ¬((9 : ℚ) ≤ mkRat 17 2)
    ∧ (processNodeCheck demoState85 0 (some "Widget")).2 = false
    ∧ (processNodeCheck demoState85 0 (some "Widget")).1.products
        = [("Widget", "https://s.test/p")] := by
  refine ⟨by decide, by decide, by decide, by decide⟩

/-- C9 (amended): the driver's product-page re-check on a popped node is
performed iff the node's own directScore strictly exceeds 8.0 (not the 9.0
high threshold); when confirmed with a label, the target is recorded, the
node is marked explored, and extraction is skipped; when not confirmed,
the node is marked explored and processing falls through to normal
extraction. -/
theorem high_score_recheck (st : CrawlerState) (nid : ℕ) (n : NodeRec)
    (check : Option String) (hn : st.nodes.get? nid = some n) :
    (productCheckInvoked st nid = true ↔ n.score > 8)
    ∧ (n.score > 8 → namePresent check = true →
        (processNodeCheck st nid check).2 = false
        ∧ (processNodeCheck st nid check).1.products
            = st.products ++ [(check.getD "", n.url)]
        ∧ ∃ m, (processNodeCheck st nid check).1.nodes.get? nid = some m
            ∧ m.explored = true ∧ m.productName = check)
    ∧ (n.score > 8 → namePresent check = false →
        (processNodeCheck st nid check).2 = true
        ∧ (processNodeCheck st nid check).1.products = st.products
        ∧ ∃ m, (processNodeCheck st nid check).1.nodes.get? nid = some m
            ∧ m.explored = true)
    ∧ (¬n.score > 8 →
        (processNodeCheck st nid check).2 = true
        ∧ (processNodeCheck st nid check).1.products = st.products
        ∧ ∃ m, (processNodeCheck st nid check).1.nodes.get? nid = some m
            ∧ m.explored = true) := by
  refine ⟨?_, ?_, ?_, ?_⟩
  · unfold productCheckInvoked
    rw [hn]
    exact decide_eq_true_iff
  · intro h8 hname
    unfold processNodeCheck
    rw [hn]
    dsimp only
    rw [if_pos h8, hname, if_pos rfl]
    exact ⟨rfl, rfl, _, modifyNode_get?_same _ _ _ _ hn, rfl, rfl⟩
  · intro h8 hname
    unfold processNodeCheck
    rw [hn]
    dsimp only
    rw [if_pos h8, hname]
    simp only [Bool.false_eq_true, if_false]
    exact ⟨trivial, trivial, _, modifyNode_get?_same _ _ _ _ hn, rfl⟩
  · intro h8
    unfold processNodeCheck
    rw [hn]
    dsimp only
    rw [if_neg h8]
    exact ⟨rfl, rfl, _, modifyNode_get?_same _ _ _ _ hn, rfl⟩

/-- Witness for `high_score_recheck`: the 8.5-score node with a confirmed
name, the same node unconfirmed, and a 0-score node. -/
theorem high_score_recheck_witness :
    (productCheckInvoked demoState85 0 = true ↔ (mkRat 17 2 : ℚ) > 8)
    ∧ (processNodeCheck demoState85 0 (some "Widget")).2 = false
    ∧ (processNodeCheck demoState85 0 none).2 = true
    ∧ (processNodeCheck demoState 0 none).2 = true := by
  have hn : demoState85.nodes.get? 0
      = some { url := "https://s.test/p", path := "/p", parent := none,
               score := mkRat 17 2, productName := none, explored := false,
               children := [] } := rfl
  have hn2 : demoState.nodes.get? 0
      = some { url := "https://s.test", path := "", parent := none,
               score := 0, productName := none, explored := false,
               children := [] } := rfl
  refine ⟨(high_score_recheck demoState85 0 _ (some "Widget") hn).1, ?_, ?_, ?_⟩
  · exact ((high_score_recheck demoState85 0 _ (some "Widget") hn).2.1
      (by decide) (by decide)).1
  · exact ((high_score_recheck demoState85 0 _ none hn).2.2.1
      (by decide) (by decide)).1
  · exact ((high_score_recheck demoState 0 _ none hn2).2.2.2 (by decide)).1

theorem classifyScore_target_iff (s : ℚ) : classifyScore s = .target ↔ 9 < s := by
  unfold classifyScore
  by_cases h1 : s < 1
  · rw [if_pos h1]
    constructor
    · intro h; cases h
    · intro h; linarith
  · by_cases h9 : s > 9
    · rw [if_neg h1, if_pos h9]
      exact ⟨fun _ => h9, fun _ => rfl⟩
    · rw [if_neg h1, if_neg h9]
      constructor
      · intro h; cases h
      · intro h; exact absurd h h9

/-- `product_count` of a scored batch (`ai_crawler.py` 233): the number of
candidates classified as targets. -/
def targetCount (outcomes : List LinkClass) : ℕ := outcomes.count .target

/-- Models `_handle_dynamic_loading` (`ai_crawler.py` 242-307).  The first
statement of its `try` block calls
`check_and_exhaust_dynamic_loading(node.url, children_info,
self.discovered_urls)` with three arguments, but the method
(`dynamic_loading.py` 31-35) accepts only `(url, discovered_urls)`;
creating the coroutine therefore raises `TypeError` before any state is
touched, the `except` at lines 306-307 logs it, and the method returns
with the crawler state unchanged — the Content Exhaustion Engine never
actually runs and no exhaustion-discovered candidate is ever scored. -/
def handleDynamicLoading (st : CrawlerState) : CrawlerState := st

/-- `process_node` after scoring (`ai_crawler.py` 146-152): apply the
scored batch, then attempt dynamic loading iff `product_count > 0`. -/
def processNodeAfterScores (children : List LinkRec) (scores : List ScoreDict)
    (parentNid : ℕ) (st : CrawlerState) : CrawlerState :=
  let r := processScoredLinks children scores parentNid st
  if 0 < targetCount r.2 then handleDynamicLoading r.1 else r.1

/-- C8: the dynamic-loading phase is attempted iff the static batch has at
least one target-class candidate (resolved score > 9.0) and runs after the
static batch was applied, but the attempt is always a no-op: the engine
invocation raises `TypeError` (arity mismatch), so the final state equals
the state after static processing and none of the engine's discoveries are
ever fed through the scoring pipeline. -/
theorem dynamic_invocation_noop (children : List LinkRec)
    (scores : List ScoreDict) (parentNid : ℕ) (st : CrawlerState) :
    processNodeAfterScores children scores parentNid st
      = (processScoredLinks children scores parentNid st).1
    ∧ (0 < targetCount (processScoredLinks children scores parentNid st).2
        ↔ ∃ link ∈ children, 9 < getScoreVal (resolveScoreData scores link.lid)) := by
  constructor
  · unfold processNodeAfterScores handleDynamicLoading
    dsimp only
    exact ite_self _
  · unfold targetCount
    rw [processScoredLinks_outcomes]
    rw [List.count_pos_iff_mem]
    constructor
    · intro h
      obtain ⟨l, hl, hf⟩ := List.mem_map.mp h
      exact ⟨l, hl, (classifyScore_target_iff _).mp hf⟩
    · rintro ⟨l, hl, h9⟩
      exact List.mem_map.mpr ⟨l, hl, (classifyScore_target_iff _).mpr h9⟩

/-- One iteration's page behaviour for the pagination / load-more loops:
whether the trigger element is visible, the valid (domain-filtered) links
harvested after the click, and whether the trigger can be re-located
afterwards. -/
structure PagStep where
  visible : Bool
  links : List String
  refound : Bool

/-- The shared `while` shape of `_handle_pagination`
(`dynamic_loading.py` 326-400, cap `max_pages = 10`) and
`_handle_load_more` (434-505, cap `max_clicks = 20`): while the counter is
under the cap and the trigger element exists — if it is not visible, stop;
otherwise click, harvest the new valid links, bump the counter, stop when
no valid links were found, else re-locate the trigger and continue.
`fuel` starts at the cap; every recursive call bumps the counter, so the
fuel can never run out before the cap check fails. -/
def triggerLoop (env : ℕ → PagStep) (cap : ℕ) :
    ℕ → ℕ → Bool → List String → ℕ × List String
  | 0, count, _, acc => (count, acc)
  | fuel + 1, count, found, acc =>
      if count < cap ∧ found then
        let step := env count
        if step.visible then
          let acc2 := acc ++ step.links
          if step.links.length = 0 then (count + 1, acc2)
          else triggerLoop env cap fuel (count + 1) step.refound acc2
        else (count, acc)
      else (count, acc)

/-- `_handle_pagination`: at most 10 trigger iterations. -/
def paginationRun (env : ℕ → PagStep) (found0 : Bool) : ℕ × List String :=
  triggerLoop env 10 10 0 found0 []

/-- `_handle_load_more`: at most 20 clicks. -/
def loadMoreRun (env : ℕ → PagStep) (found0 : Bool) : ℕ × List String :=
  triggerLoop env 20 20 0 found0 []

/-- One scroll iteration's page behaviour for
`_exhaust_container_scroll`. -/
structure ScrollStep where
  changed : Bool
  links : List String
  atBottom : Bool

/-- `dynamic_loading.py` 981-1070 (`_exhaust_container_scroll`): while
`scroll_count < max_scrolls (10)` and `no_change_count < max_no_change
(3)` — scroll, harvest when the content metrics changed (resetting the
no-change counter, else bumping it), bump the scroll counter, and break
early when the container is at its scroll bound with at least one
no-change iteration. -/
def scrollLoop (env : ℕ → ScrollStep) :
    ℕ → ℕ → ℕ → List String → ℕ × List String
  | 0, scrollCount, _, acc => (scrollCount, acc)
  | fuel + 1, scrollCount, noChange, acc =>
      if scrollCount < 10 ∧ noChange < 3 then
        let step := env scrollCount
        let acc2 := if step.changed then acc ++ step.links else acc
        let noChange2 := if step.changed then 0 else noChange + 1
        if step.atBottom ∧ 0 < noChange2 then (scrollCount + 1, acc2)
        else scrollLoop env fuel (scrollCount + 1) noChange2 acc2
      else (scrollCount, acc)

/-- `_exhaust_container_scroll` for one container. -/
def containerScrollRun (env : ℕ → ScrollStep) : ℕ × List String :=
  scrollLoop env 10 0 0 []

theorem triggerLoop_le (env : ℕ → PagStep) (cap : ℕ) :
    ∀ fuel count found acc, count ≤ cap →
      (triggerLoop env cap fuel count found acc).1 ≤ cap := by
  intro fuel
  induction fuel with
  | zero => intro count found acc h; exact h
  | succ f ih =>
      intro count found acc h
      simp only [triggerLoop]
      by_cases hg : count < cap ∧ found = true
      · rw [if_pos hg]
        by_cases hv : (env count).visible = true
        · rw [if_pos hv]
          by_cases hz : (env count).links.length = 0
          · rw [if_pos hz]
            exact hg.1
          · rw [if_neg hz]
            exact ih (count + 1) (env count).refound _ hg.1
        · rw [if_neg hv]
          exact h
      · rw [if_neg hg]
        exact h

theorem scrollLoop_le (env : ℕ → ScrollStep) :
    ∀ fuel scrollCount noChange acc, scrollCount ≤ 10 →
      (scrollLoop env fuel scrollCount noChange acc).1 ≤ 10 := by
  intro fuel
  induction fuel with
  | zero => intro sc nc acc h; exact h
  | succ f ih =>
      intro sc nc acc h
      simp only [scrollLoop]
      by_cases hg : sc < 10 ∧ nc < 3
      · rw [if_pos hg]
        by_cases hb : (env sc).atBottom = true
            ∧ 0 < (if (env sc).changed then 0 else nc + 1)
        · rw [if_pos hb]
          exact hg.1
        · rw [if_neg hb]
          exact ih (sc + 1) _ _ hg.1
      · rw [if_neg hg]
        exact h

theorem scrollLoop_noChange (env : ℕ → ScrollStep)
    (hnc : ∀ i, (env i).changed = false) :
    ∀ fuel scrollCount noChange acc,
      (scrollLoop env fuel scrollCount noChange acc).1
        ≤ scrollCount + (3 - noChange) := by
  intro fuel
  induction fuel with
  | zero => intro sc nc acc; simp [scrollLoop]
  | succ f ih =>
      intro sc nc acc
      simp only [scrollLoop]
      by_cases hg : sc < 10 ∧ nc < 3
      · rw [if_pos hg]
        rw [hnc sc]
        simp only [Bool.false_eq_true, if_false]
        by_cases hb : (env sc).atBottom = true ∧ 0 < nc + 1
        · rw [if_pos hb]
          omega
        · rw [if_neg hb]
          have := ih (sc + 1) (nc + 1) acc
          omega
      · rw [if_neg hg]
        omega

/-- C7: every content-exhaustion handler terminates within its hard
iteration cap regardless of what the page reports: pagination performs at
most 10 trigger iterations, load-more at most 20 clicks, container scroll
at most 10 scroll attempts — and when no iteration ever reports a content
change, the scroll loop stops within 3 iterations (the consecutive
no-change bound). -/
theorem exhaustion_caps (envP envL : ℕ → PagStep) (envS : ℕ → ScrollStep)
    (fP fL : Bool) :
    (paginationRun envP fP).1 ≤ 10
    ∧ (loadMoreRun envL fL).1 ≤ 20
    ∧ (containerScrollRun envS).1 ≤ 10
    ∧ ((∀ i, (envS i).changed = false) → (containerScrollRun envS).1 ≤ 3) := by
  refine ⟨triggerLoop_le envP 10 10 0 fP [] (by omega),
    triggerLoop_le envL 20 20 0 fL [] (by omega),
    scrollLoop_le envS 10 0 0 [] (by omega), ?_⟩
  intro hnc
  have := scrollLoop_noChange envS hnc 10 0 0 []
  simpa using this

/-- A page that reports fresh content on every single iteration. -/
def endlessPage : ℕ → PagStep := fun i => ⟨true, [toString i], true⟩

/-- A scroll container that keeps growing forever. -/
def endlessScroll : ℕ → ScrollStep := fun i => ⟨true, [toString i], false⟩

/-- A scroll container that never changes. -/
def frozenScroll : ℕ → ScrollStep := fun _ => ⟨false, [], false⟩

/-- Witness for `exhaustion_caps`: even a page that endlessly reports new
content is cut off at the caps, and a frozen container stops within 3
scroll attempts. -/
theorem exhaustion_caps_witness :
    (paginationRun endlessPage true).1 ≤ 10
    ∧ (loadMoreRun endlessPage true).1 ≤ 20
    ∧ (containerScrollRun endlessScroll).1 ≤ 10
    ∧ (containerScrollRun frozenScroll).1 ≤ 3 := by
  refine ⟨(exhaustion_caps endlessPage endlessPage endlessScroll true true).1,
    (exhaustion_caps endlessPage endlessPage endlessScroll true true).2.1,
    (exhaustion_caps endlessPage endlessPage endlessScroll true true).2.2.1,
    (exhaustion_caps endlessPage endlessPage frozenScroll true true).2.2.2
      (fun i => rfl)⟩

/-- `utils.py` 89-98 (`_create_link_info`'s Dedup Registry interaction):
a candidate is dropped when its absolute URL is already in
`discovered_urls` (line 93) or off-domain (line 97); otherwise it is
reported.  The function never inserts into `discovered_urls` — the only
insertion in the whole crawler is the initializer `{base_url}`
(`ai_crawler.py` 62) — so the registry it returns is always unchanged. -/
def createLinkInfoCheck (reg : List String) (url : String) (sameDomain : Bool) :
    Option String × List String :=
  if url ∈ reg then (none, reg)
  else if !sameDomain then (none, reg)
  else (some url, reg)

/-- Modelled from the spec: the Dedup Registry contract `MarkIfNew(url)` —
atomically check membership and insert, returning true only on the first
sighting of the URL. -/
def markIfNewSpec (reg : List String) (url : String) : Bool × List String :=
  if url ∈ reg then (false, reg) else (true, url :: reg)

/-- C10: the code's registry check never inserts, so it is not
`MarkIfNew`.  At the concrete failing input — registry `{base}`, URL `/p`
extracted on one page and again later — the code reports the URL both
times (second sighting NOT filtered), while the spec's `MarkIfNew`
contract would report it exactly once; and for every registry and URL the
code leaves the registry unchanged. -/
theorem registry_no_insert_bug :
    (createLinkInfoCheck ["https://s.test"] "https://s.test/p" true).1
        = some "https://s.test/p"
    ∧ (createLinkInfoCheck
        (createLinkInfoCheck ["https://s.test"] "https://s.test/p" true).2
        "https://s.test/p" true).1 = some "https://s.test/p"
    ∧ (markIfNewSpec ["https://s.test"] "https://s.test/p").1 = true
    ∧ (markIfNewSpec
        (markIfNewSpec ["https://s.test"] "https://s.test/p").2
        "https://s.test/p").1 = false
    ∧ ∀ (reg : List String) (url : String) (sd : Bool),
        (createLinkInfoCheck reg url sd).2 = reg := by
  refine ⟨by decide, by decide, by decide, by decide, ?_⟩
  intro reg url sd
  unfold createLinkInfoCheck
  by_cases h : url ∈ reg
  · rw [if_pos h]
  · rw [if_neg h]
    by_cases hs : sd = true
    · subst hs
      simp
    · simp at hs
      subst hs
      simp

theorem modifyNode_get?_map {α : Type} (nodes : List NodeRec) (nid : ℕ)
    (f : NodeRec → NodeRec) (g : NodeRec → α) (hg : ∀ n, g (f n) = g n)
    (i : ℕ) :
    ((modifyNode nodes nid f).get? i).map g = (nodes.get? i).map g := by
  by_cases h : i = nid
  · subst h
    cases hn : nodes.get? i with
    | none =>
        unfold modifyNode
        rw [hn]
        dsimp only
        rw [hn]
    | some n =>
        rw [modifyNode_get?_same _ _ _ _ hn]
        simp only [Option.map_some']
        rw [hg n]
  · rw [modifyNode_get?_other _ _ _ _ h]

theorem modifyNode_map {α : Type} (nodes : List NodeRec) (nid : ℕ)
    (f : NodeRec → NodeRec) (g : NodeRec → α) (hg : ∀ n, g (f n) = g n) :
    (modifyNode nodes nid f).map g = nodes.map g := by
  apply List.ext_get?
  intro i
  rw [List.get?_map, List.get?_map]
  exact modifyNode_get?_map nodes nid f g hg i

theorem assocUpd_map_snd_sub (c : List (String × ℕ)) (k : String) (v : ℕ) :
    ∀ x ∈ (assocUpd c k v).map Prod.snd, x ∈ c.map Prod.snd ∨ x = v := by
  induction c with
  | nil =>
      intro x hx
      simp [assocUpd] at hx
      exact Or.inr hx
  | cons hd tl ih =>
      obtain ⟨k2, v2⟩ := hd
      intro x hx
      by_cases hk : k2 = k
      · simp only [assocUpd, if_pos hk, List.map_cons, List.mem_cons] at hx
        rcases hx with rfl | hx
        · exact Or.inr rfl
        · exact Or.inl (by simp [hx])
      · simp only [assocUpd, if_neg hk, List.map_cons, List.mem_cons] at hx
        rcases hx with rfl | hx
        · exact Or.inl (by simp)
        · rcases ih x hx with h | h
          · exact Or.inl (by simp [h])
          · exact Or.inr h

theorem assocUpd_map_snd_nodup (c : List (String × ℕ)) (k : String) (v : ℕ)
    (hc : (c.map Prod.snd).Nodup) (hv : v ∉ c.map Prod.snd) :
    ((assocUpd c k v).map Prod.snd).Nodup := by
  induction c with
  | nil => simp [assocUpd]
  | cons hd tl ih =>
      obtain ⟨k2, v2⟩ := hd
      rw [List.map_cons, List.nodup_cons] at hc
      obtain ⟨hv2, htl⟩ := hc
      have hvtl : v ∉ tl.map Prod.snd := fun hq => hv (by simp [hq])
      have hvv2 : v ≠ v2 := fun hq => hv (by simp [hq])
      by_cases hk : k2 = k
      · simp only [assocUpd, if_pos hk, List.map_cons, List.nodup_cons]
        exact ⟨hvtl, htl⟩
      · simp only [assocUpd, if_neg hk, List.map_cons, List.nodup_cons]
        refine ⟨?_, ih htl hvtl⟩
        intro hq
        rcases assocUpd_map_snd_sub tl k v v2 hq with h | h
        · exact hv2 h
        · exact hvv2 h.symm

theorem join_set_subset (v : ℕ) :
    ∀ (L : List (List ℕ)) (p : ℕ) (old new : List ℕ),
      L.get? p = some old → (∀ x ∈ new, x ∈ old ∨ x = v) →
      ∀ y ∈ (L.set p new).join, y ∈ L.join ∨ y = v := by
  intro L
  induction L with
  | nil => intro p old new hp; cases hp
  | cons c rest ih =>
      intro p old new hp hsub y hy
      cases p with
      | zero =>
          have hold : c = old := by simpa using hp
          subst hold
          simp only [List.set_cons_zero, List.join_cons, List.mem_append] at hy
          rcases hy with hy | hy
          · rcases hsub y hy with h | h
            · exact Or.inl (by simp [h])
            · exact Or.inr h
          · exact Or.inl (by simp [hy])
      | succ q =>
          have hp2 : rest.get? q = some old := by simpa using hp
          simp only [List.set_cons_succ, List.join_cons, List.mem_append] at hy
          rcases hy with hy | hy
          · exact Or.inl (by simp [hy])
          · rcases ih q old new hp2 hsub y hy with h | h
            · exact Or.inl (by simp [h])
            · exact Or.inr h

theorem join_set_nodup (v : ℕ) :
    ∀ (L : List (List ℕ)) (p : ℕ) (old new : List ℕ),
      L.get? p = some old → L.join.Nodup → new.Nodup →
      (∀ x ∈ new, x ∈ old ∨ x = v) → v ∉ L.join →
      ((L.set p new).join).Nodup := by
  intro L
  induction L with
  | nil => intro p old new hp; cases hp
  | cons c rest ih =>
      intro p old new hp hnd hnew hsub hv
      simp only [List.join_cons, List.nodup_append] at hnd
      obtain ⟨hc, hrest, hdisj⟩ := hnd
      simp only [List.join_cons, List.mem_append] at hv
      push_neg at hv
      obtain ⟨hvc, hvrest⟩ := hv
      cases p with
      | zero =>
          have hold : c = old := by simpa using hp
          subst hold
          simp only [List.set_cons_zero, List.join_cons, List.nodup_append]
          refine ⟨hnew, hrest, ?_⟩
          intro x hx hx2
          rcases hsub x hx with h | h
          · exact hdisj h hx2
          · subst h
            exact hvrest hx2
      | succ q =>
          have hp2 : rest.get? q = some old := by simpa using hp
          simp only [List.set_cons_succ, List.join_cons, List.nodup_append]
          refine ⟨hc, ih q old new hp2 hrest hnew hsub hvrest, ?_⟩
          intro x hx hx2
          rcases join_set_subset v rest q old new hp2 hsub x hx2 with h | h
          · exact hdisj hx h
          · subst h
            exact hvc hx

/-- The per-node child-pointer lists (`children` dict values). -/
def childLists (nodes : List NodeRec) : List (List ℕ) :=
  nodes.map (fun n => n.children.map Prod.snd)

/-- All child pointers in the node store. -/
def childVals (nodes : List NodeRec) : List ℕ := (childLists nodes).join

/-- Invariant of the Page Node Graph maintained by `_create_child_node`
(paired with the `url_to_node` registration): the store is non-empty (the
root exists), every `url_to_node` entry points at a stored node carrying
that URL, URLs key the index uniquely, every node is indexed, every child
pointer occurs in at most one `children` dict under at most one key,
child pointers are valid and never point at the root, the root has no
parent, and every non-root node carries a parent reference. -/
def GraphWF (st : CrawlerState) : Prop :=
  0 < st.nodes.length
  ∧ (∀ e ∈ st.urlIndex, (st.nodes.get? e.2).map NodeRec.url = some e.1)
  ∧ (st.urlIndex.map Prod.fst).Nodup
  ∧ (∀ nid, nid < st.nodes.length → ∃ e ∈ st.urlIndex, e.2 = nid)
  ∧ (childVals st.nodes).Nodup
  ∧ (∀ v ∈ childVals st.nodes, v < st.nodes.length ∧ 0 < v)
  ∧ (st.nodes.get? 0).map NodeRec.parent = some (none : Option ℕ)
  ∧ (∀ nid, nid < st.nodes.length → 0 < nid →
      (st.nodes.get? nid).map NodeRec.parent ≠ some (none : Option ℕ))

instance (st : CrawlerState) : Decidable (GraphWF st) := by
  unfold GraphWF
  infer_instance

/-- The crawler's starting state for a base URL (`ai_crawler.py` 52-62). -/
def initState (base : String) : CrawlerState :=
  { nodes := [{ url := base, path := "", parent := none, score := 0,
                productName := none, explored := false, children := [] }],
    urlIndex := [(base, 0)],
    opens := OpenSetState.empty,
    products := [] }

/-- A discovery event handed to `_create_child_node`: the candidate link,
the parent node, and the scorer's verdict. -/
structure Discovery where
  link : LinkRec
  parentNid : ℕ
  score : ℚ
  pname : Option String
deriving Repr

/-- An arbitrary sequence of discoveries applied through
`_create_child_node`. -/
def runDiscoveries (st : CrawlerState) (ds : List Discovery) : CrawlerState :=
  ds.foldl
    (fun s d => (createChildNode s d.link d.parentNid d.score d.pname).2) st

theorem initState_wf (base : String) : GraphWF (initState base) := by
  refine ⟨by simp [initState], ?_, by simp [initState], ?_, ?_, ?_, rfl, ?_⟩
  · intro e he
    simp only [initState, List.mem_singleton] at he
    subst he
    rfl
  · intro nid hnid
    simp only [initState, List.length_singleton] at hnid
    interval_cases nid
    exact ⟨(base, 0), by simp [initState]⟩
  · simp [childVals, childLists, initState]
  · intro v hv
    simp [childVals, childLists, initState] at hv
  · intro nid h1 h2
    simp only [initState, List.length_singleton] at h1
    omega

theorem modifyNode_oob (nodes : List NodeRec) (p : ℕ) (f : NodeRec → NodeRec)
    (h : nodes.get? p = none) : modifyNode nodes p f = nodes := by
  unfold modifyNode
  rw [h]

theorem modifyNode_eq_set (nodes : List NodeRec) (p : ℕ) (f : NodeRec → NodeRec)
    (np : NodeRec) (h : nodes.get? p = some np) :
    modifyNode nodes p f = nodes.set p (f np) := by
  unfold modifyNode
  rw [h]

theorem childVals_modify (nodes : List NodeRec) (nid : ℕ)
    (f : NodeRec → NodeRec) (hf : ∀ n, (f n).children = n.children) :
    childVals (modifyNode nodes nid f) = childVals nodes := by
  unfold childVals childLists
  rw [modifyNode_map nodes nid f (fun n => n.children.map Prod.snd)
    (fun n => by show (f n).children.map Prod.snd = n.children.map Prod.snd
                 rw [hf])]

theorem childVals_append_new (nodes : List NodeRec) (new : NodeRec)
    (hnew : new.children = []) :
    childVals (nodes ++ [new]) = childVals nodes := by
  unfold childVals childLists
  rw [List.map_append]
  simp [hnew]

theorem graphWF_nodes_len (st : CrawlerState) (e : String × ℕ)
    (hwf2 : ∀ e2 ∈ st.urlIndex, (st.nodes.get? e2.2).map NodeRec.url = some e2.1)
    (he : e ∈ st.urlIndex) : e.2 < st.nodes.length := by
  have h := hwf2 e he
  cases hg : st.nodes.get? e.2 with
  | none => rw [hg] at h; cases h
  | some n => exact (List.get?_eq_some.mp hg).choose

/-- `_create_child_node` preserves the Page Node Graph invariant, in both
the deduplicated (URL already known) and the fresh-allocation case. -/
theorem createChildNode_wf (st : CrawlerState) (d : LinkRec) (p : ℕ) (s : ℚ)
    (pn : Option String) (hwf : GraphWF st) :
    GraphWF (createChildNode st d p s pn).2 := by
  obtain ⟨hlen, hentries, hkeys, hcomp, hcvn, hcvb, hroot, hnonroot⟩ := hwf
  unfold createChildNode GraphWF
  cases hl : lookupUrl st.urlIndex d.url with
  | some nid =>
      simp only [hl]
      set fS : NodeRec → NodeRec := fun n =>
        { n with score := s,
                 productName := if namePresent pn then pn else n.productName }
        with hfS
      refine ⟨?_, ?_, hkeys, ?_, ?_, ?_, ?_, ?_⟩
      · rw [modifyNode_length]
        exact hlen
      · intro e he
        rw [modifyNode_get?_map st.nodes nid fS NodeRec.url (fun n => rfl)]
        exact hentries e he
      · intro nid2 h
        rw [modifyNode_length] at h
        exact hcomp nid2 h
      · rw [childVals_modify st.nodes nid fS (fun n => rfl)]
        exact hcvn
      · intro v hv
        rw [childVals_modify st.nodes nid fS (fun n => rfl)] at hv
        rw [modifyNode_length]
        exact hcvb v hv
      · rw [modifyNode_get?_map st.nodes nid fS NodeRec.parent (fun n => rfl)]
        exact hroot
      · intro nid2 h1 h2
        rw [modifyNode_length] at h1
        rw [modifyNode_get?_map st.nodes nid fS NodeRec.parent (fun n => rfl)]
        exact hnonroot nid2 h1 h2
  | none =>
      simp only [hl]
      set nid := st.nodes.length with hnid
      set fS : NodeRec → NodeRec := fun n =>
        { n with score := s,
                 productName := if namePresent pn then pn else n.productName }
        with hfS
      set f2 : NodeRec → NodeRec := fun q =>
        { q with children := assocUpd q.children d.path nid } with hf2
      set newNode : NodeRec :=
        { url := d.url, path := d.path, parent := some p,
          score := 0, productName := none, explored := false,
          children := [] } with hnew
      set nodes1 : List NodeRec := st.nodes ++ [newNode] with hnodes1
      have hlen1 : nodes1.length = nid + 1 := by
        rw [hnodes1, List.length_append, List.length_singleton]
      have hget1new : nodes1.get? nid = some newNode := List.get?_concat_length _ _
      have hget1old : ∀ i, i < st.nodes.length → nodes1.get? i = st.nodes.get? i := by
        intro i hi
        rw [hnodes1, List.get?_append hi]
      have hnotkey : ∀ e ∈ st.urlIndex, ¬e.1 = d.url := by
        intro e he
        unfold lookupUrl at hl
        rw [Option.map_eq_none'] at hl
        have := List.find?_eq_none.mp hl e he
        simpa using this
      have hcv2 : (childVals (modifyNode nodes1 p f2)).Nodup
          ∧ ∀ v ∈ childVals (modifyNode nodes1 p f2),
              v ∈ childVals st.nodes ∨ v = nid := by
        cases hp : nodes1.get? p with
        | none =>
            rw [modifyNode_oob _ _ _ hp, childVals_append_new _ _ rfl]
            exact ⟨hcvn, fun v hv => Or.inl hv⟩
        | some np =>
            rw [modifyNode_eq_set _ _ _ np hp]
            have hLget : (childLists nodes1).get? p
                = some (np.children.map Prod.snd) := by
              unfold childLists
              rw [List.get?_map, hp]
              rfl
            have hLjoin : (childLists nodes1).join = childVals st.nodes := by
              have h2 := childVals_append_new st.nodes newNode rfl
              unfold childVals at h2
              exact h2
            have hset : childLists (nodes1.set p (f2 np))
                = (childLists nodes1).set p
                    ((assocUpd np.children d.path nid).map Prod.snd) := by
              unfold childLists
              rw [List.map_set]
            have holdmem : np.children.map Prod.snd ∈ childLists nodes1 :=
              List.get?_mem hLget
            have holdsub : ∀ x ∈ np.children.map Prod.snd,
                x ∈ childVals st.nodes := by
              intro x hx
              rw [← hLjoin]
              exact List.mem_join_of_mem holdmem hx
            have holdnodup : (np.children.map Prod.snd).Nodup := by
              have hj : (childLists nodes1).join.Nodup := by
                rw [hLjoin]
                exact hcvn
              exact (List.nodup_join.mp hj).1 _ holdmem
            have hnidout : nid ∉ childVals st.nodes := by
              intro hq
              have := (hcvb nid hq).1
              omega
            have hnidold : nid ∉ np.children.map Prod.snd := fun hq =>
              hnidout (holdsub nid hq)
            constructor
            · unfold childVals
              rw [hset]
              exact join_set_nodup nid (childLists nodes1) p _ _ hLget
                (by rw [hLjoin]; exact hcvn)
                (assocUpd_map_snd_nodup _ _ _ holdnodup hnidold)
                (assocUpd_map_snd_sub _ _ _)
                (by rw [hLjoin]; exact hnidout)
            · intro v hv
              unfold childVals at hv
              rw [hset] at hv
              rcases join_set_subset nid (childLists nodes1) p _ _ hLget
                (assocUpd_map_snd_sub _ _ _) v hv with h | h
              · rw [hLjoin] at h
                exact Or.inl h
              · exact Or.inr h
      refine ⟨?_, ?_, ?_, ?_, ?_, ?_, ?_, ?_⟩
      · rw [modifyNode_length, modifyNode_length, hlen1]
        omega
      · intro e he
        rw [modifyNode_get?_map _ nid fS NodeRec.url (fun n => rfl),
          modifyNode_get?_map nodes1 p f2 NodeRec.url (fun n => rfl)]
        rcases List.mem_cons.mp he with rfl | he2
        · rw [hget1new]
          rfl
        · have hlt : e.2 < st.nodes.length := graphWF_nodes_len st e hentries he2
          rw [hget1old e.2 hlt]
          exact hentries e he2
      · rw [List.map_cons, List.nodup_cons]
        refine ⟨?_, hkeys⟩
        intro hq
        obtain ⟨e, he, heq⟩ := List.mem_map.mp hq
        exact hnotkey e he heq
      · intro nid2 h
        rw [modifyNode_length, modifyNode_length, hlen1] at h
        by_cases h2 : nid2 < st.nodes.length
        · obtain ⟨e, he, hee⟩ := hcomp nid2 h2
          exact ⟨e, List.mem_cons_of_mem _ he, hee⟩
        · have heq : nid2 = nid := by omega
          exact ⟨(d.url, nid), List.mem_cons_self _ _, heq.symm⟩
      · rw [childVals_modify _ nid fS (fun n => rfl)]
        exact hcv2.1
      · intro v hv
        rw [childVals_modify _ nid fS (fun n => rfl)] at hv
        rw [modifyNode_length, modifyNode_length, hlen1]
        rcases hcv2.2 v hv with h | h
        · have := hcvb v h
          omega
        · omega
      · rw [modifyNode_get?_map _ nid fS NodeRec.parent (fun n => rfl),
          modifyNode_get?_map nodes1 p f2 NodeRec.parent (fun n => rfl),
          hget1old 0 hlen]
        exact hroot
      · intro nid2 h1 h2
        rw [modifyNode_length, modifyNode_length, hlen1] at h1
        rw [modifyNode_get?_map _ nid fS NodeRec.parent (fun n => rfl),
          modifyNode_get?_map nodes1 p f2 NodeRec.parent (fun n => rfl)]
        by_cases hcase : nid2 < st.nodes.length
        · rw [hget1old nid2 hcase]
          exact hnonroot nid2 hcase h2
        · have heq : nid2 = nid := by omega
          rw [heq, hget1new]
          intro hq
          cases hq

theorem runDiscoveries_wf :
    ∀ (ds : List Discovery) (st : CrawlerState), GraphWF st →
      GraphWF (runDiscoveries st ds) := by
  intro ds
  induction ds with
  | nil => intro st h; exact h
  | cons hd tl ih =>
      intro st h
      simp only [runDiscoveries, List.foldl_cons]
      exact ih _ (createChildNode_wf st hd.link hd.parentNid hd.score hd.pname h)

/-- URL-keyed node identity: under the graph invariant, two node indices
holding the same URL are equal — at most one Page Node per URL. -/
theorem graphWF_url_inj (st : CrawlerState) (hwf : GraphWF st) :
    ∀ i j, i < st.nodes.length → j < st.nodes.length →
      (st.nodes.get? i).map NodeRec.url = (st.nodes.get? j).map NodeRec.url →
      i = j := by
  obtain ⟨hlen, hentries, hkeys, hcomp, _, _, _, _⟩ := hwf
  intro i j hi hj hurl
  obtain ⟨ei, hei, heii⟩ := hcomp i hi
  obtain ⟨ej, hej, hejj⟩ := hcomp j hj
  have h1 := hentries ei hei
  have h2 := hentries ej hej
  rw [heii] at h1
  rw [hejj] at h2
  have hkey : ei.1 = ej.1 := by
    rw [h1, h2] at hurl
    exact Option.some.inj hurl
  have hee : ei = ej := List.inj_on_of_nodup_map hkeys hei hej hkey
  rw [← heii, ← hejj, hee]

theorem graphWF_idx (st : CrawlerState) (hwf : GraphWF st) : UrlIdxWF st :=
  fun e he => graphWF_nodes_len st e hwf.2.1 he

/-- Known-URL idempotence of `_create_child_node`: no allocation, the
registered node is returned, and its score is overwritten. -/
theorem createChildNode_known (st : CrawlerState) (d : LinkRec) (p : ℕ)
    (s : ℚ) (pn : Option String) (nid : ℕ)
    (hl : lookupUrl st.urlIndex d.url = some nid) (hwf : GraphWF st) :
    (createChildNode st d p s pn).1 = nid
    ∧ (createChildNode st d p s pn).2.nodes.length = st.nodes.length
    ∧ ((createChildNode st d p s pn).2.nodes.get? nid).map NodeRec.score
        = some s := by
  have hlt : nid < st.nodes.length := lookupUrl_lt st d.url nid (graphWF_idx st hwf) hl
  have hn : st.nodes.get? nid = some (st.nodes.get ⟨nid, hlt⟩) :=
    List.get?_eq_get hlt
  unfold createChildNode
  simp only [hl]
  refine ⟨trivial, modifyNode_length _ _ _, ?_⟩
  rw [modifyNode_get?_same _ _ _ _ hn]
  rfl

theorem createChildNode_parent_preserved (st : CrawlerState) (d : LinkRec)
    (p : ℕ) (s : ℚ) (pn : Option String) (i : ℕ) (hi : i < st.nodes.length) :
    ((createChildNode st d p s pn).2.nodes.get? i).map NodeRec.parent
      = (st.nodes.get? i).map NodeRec.parent := by
  unfold createChildNode
  cases hl : lookupUrl st.urlIndex d.url with
  | some nid =>
      simp only [hl]
      set fS : NodeRec → NodeRec := fun n =>
        { n with score := s,
                 productName := if namePresent pn then pn else n.productName }
        with hfS
      exact modifyNode_get?_map st.nodes nid fS NodeRec.parent (fun n => rfl) i
  | none =>
      simp only [hl]
      set nid := st.nodes.length with hnid
      set fS : NodeRec → NodeRec := fun n =>
        { n with score := s,
                 productName := if namePresent pn then pn else n.productName }
        with hfS
      set f2 : NodeRec → NodeRec := fun q =>
        { q with children := assocUpd q.children d.path nid } with hf2
      set newNode : NodeRec :=
        { url := d.url, path := d.path, parent := some p,
          score := 0, productName := none, explored := false,
          children := [] } with hnew
      rw [modifyNode_get?_map _ nid fS NodeRec.parent (fun n => rfl),
        modifyNode_get?_map (st.nodes ++ [newNode]) p f2 NodeRec.parent
          (fun n => rfl),
        List.get?_append hi]

/-- Fresh-URL allocation: the new node's unique parent reference is the
discovering node. -/
theorem createChildNode_fresh_parent (st : CrawlerState) (d : LinkRec)
    (p : ℕ) (s : ℚ) (pn : Option String)
    (hl : lookupUrl st.urlIndex d.url = none) :
    ((createChildNode st d p s pn).2.nodes.get? st.nodes.length).map
        NodeRec.parent = some (some p) := by
  unfold createChildNode
  simp only [hl]
  set nid := st.nodes.length with hnid
  set fS : NodeRec → NodeRec := fun n =>
    { n with score := s,
             productName := if namePresent pn then pn else n.productName }
    with hfS
  set f2 : NodeRec → NodeRec := fun q =>
    { q with children := assocUpd q.children d.path nid } with hf2
  set newNode : NodeRec :=
    { url := d.url, path := d.path, parent := some p,
      score := 0, productName := none, explored := false,
      children := [] } with hnew
  rw [modifyNode_get?_map _ nid fS NodeRec.parent (fun n => rfl),
    modifyNode_get?_map (st.nodes ++ [newNode]) p f2 NodeRec.parent
      (fun n => rfl),
    List.get?_concat_length]
  rfl

/-- C4: after any sequence of discoveries from the initial state, exactly
one Page Node exists per canonical URL (two indices with the same URL
coincide); re-discovering a known URL allocates nothing, returns the
existing node and overwrites its score; every node is the child of at
most one parent under at most one path key (all child pointers are
pairwise distinct); a discovery never changes any existing node's parent
reference; the root has no parent; every non-root node carries a parent
reference; and a fresh discovery's new node gets exactly the discovering
parent. -/
theorem node_dedup_tree (base : String) (ds : List Discovery) (d : LinkRec)
    (p : ℕ) (s : ℚ) (pn : Option String) (nid : ℕ) :
    (∀ i j, i < (runDiscoveries (initState base) ds).nodes.length →
        j < (runDiscoveries (initState base) ds).nodes.length →
        ((runDiscoveries (initState base) ds).nodes.get? i).map NodeRec.url
          = ((runDiscoveries (initState base) ds).nodes.get? j).map NodeRec.url →
        i = j)
    ∧ (lookupUrl (runDiscoveries (initState base) ds).urlIndex d.url = some nid →
        (createChildNode (runDiscoveries (initState base) ds) d p s pn).1 = nid
        ∧ (createChildNode (runDiscoveries (initState base) ds) d p s pn).2.nodes.length
            = (runDiscoveries (initState base) ds).nodes.length
        ∧ ((createChildNode (runDiscoveries (initState base) ds) d p s pn).2.nodes.get?
              nid).map NodeRec.score = some s)
    ∧ (childVals (runDiscoveries (initState base) ds).nodes).Nodup
    ∧ (∀ i, i < (runDiscoveries (initState base) ds).nodes.length →
        ((createChildNode (runDiscoveries (initState base) ds) d p s pn).2.nodes.get?
              i).map NodeRec.parent
          = ((runDiscoveries (initState base) ds).nodes.get? i).map NodeRec.parent)
    ∧ ((runDiscoveries (initState base) ds).nodes.get? 0).map NodeRec.parent
        = some (none : Option ℕ)
    ∧ (∀ i, i < (runDiscoveries (initState base) ds).nodes.length → 0 < i →
        ((runDiscoveries (initState base) ds).nodes.get? i).map NodeRec.parent
          ≠ some (none : Option ℕ))
    ∧ (lookupUrl (runDiscoveries (initState base) ds).urlIndex d.url = none →
        ((createChildNode (runDiscoveries (initState base) ds) d p s pn).2.nodes.get?
              (runDiscoveries (initState base) ds).nodes.length).map NodeRec.parent
          = some (some p)) := by
  have hwf : GraphWF (runDiscoveries (initState base) ds) :=
    runDiscoveries_wf ds (initState base) (initState_wf base)
  refine ⟨graphWF_url_inj _ hwf, ?_, hwf.2.2.2.2.1, ?_, hwf.2.2.2.2.2.2.1, ?_, ?_⟩
  · intro hl
    exact createChildNode_known _ d p s pn nid hl hwf
  · intro i hi
    exact createChildNode_parent_preserved _ d p s pn i hi
  · intro i hi h0
    exact hwf.2.2.2.2.2.2.2 i hi h0
  · intro hl
    exact createChildNode_fresh_parent _ d p s pn hl

/-- Witness for `node_dedup_tree`: discover `/a` once (creating node 1),
then re-discover the same URL — the same node index comes back, nothing
is allocated, the score is overwritten — and discover a fresh URL `/b`,
whose node carries the root as its single parent. -/
theorem node_dedup_tree_witness :
    (createChildNode
        (runDiscoveries (initState "https://s.test") [⟨demoLink0, 0, 5, none⟩])
        demoLink0 0 7 none).1 = 1
    ∧ (createChildNode
        (runDiscoveries (initState "https://s.test") [⟨demoLink0, 0, 5, none⟩])
        demoLink0 0 7 none).2.nodes.length
        = (runDiscoveries (initState "https://s.test")
            [⟨demoLink0, 0, 5, none⟩]).nodes.length
    ∧ ((createChildNode
        (runDiscoveries (initState "https://s.test") [⟨demoLink0, 0, 5, none⟩])
        demoLink0 0 7 none).2.nodes.get? 1).map NodeRec.score = some 7
    ∧ ((createChildNode
        (runDiscoveries (initState "https://s.test") [⟨demoLink0, 0, 5, none⟩])
        demoLink1 0 7 none).2.nodes.get?
          (runDiscoveries (initState "https://s.test")
            [⟨demoLink0, 0, 5, none⟩]).nodes.length).map NodeRec.parent
        = some (some 0) := by
  obtain ⟨h1, h2, h3⟩ :=
    (node_dedup_tree "https://s.test" [⟨demoLink0, 0, 5, none⟩]
      demoLink0 0 7 none 1).2.1 (by decide)
  refine ⟨h1, h2, h3, ?_⟩
  exact (node_dedup_tree "https://s.test" [⟨demoLink0, 0, 5, none⟩]
    demoLink1 0 7 none 1).2.2.2.2.2.2 (by decide)
